import Mathlib

/-!
Verification of the SmartContractGen build-automation layer.

Text is modelled as `List Char` (named `Str` below).  Python string
operations (`in`, `str.replace`, `re.sub`, `str.split`, `str.strip`,
`str.lower`) are embedded as executable functions on `Str`.  External
effects (the LLM client, `anchor build`, `solana address`, the file
system) are modelled as environment records supplied to the functions
that orchestrate them; file writes are recorded as explicit events.
`\s` of Python's `re` is modelled over its ASCII range, which covers the
Rust/TOML text this program manipulates.
-/

namespace SCG

abbrev Str := List Char

def strL (s : String) : Str := s.data

/-- Boolean prefix test on character lists. -/
def isPrefixB : Str → Str → Bool
  | [], _ => true
  | _ :: _, [] => false
  | a :: as, b :: bs => a == b && isPrefixB as bs

/-- Python's `needle in haystack` substring test. -/
def containsB (n : Str) : Str → Bool
  | [] => n.isEmpty
  | c :: cs => isPrefixB n (c :: cs) || containsB n cs

/-- Python `str.lower`, per character (ASCII range). -/
def lowerStr (l : Str) : Str := l.map Char.toLower

/-- ASCII range of Python's `\s` and of `str.strip`'s default set. -/
def pyWs (c : Char) : Bool :=
  c == ' ' || c == '\t' || c == '\n' || c == '\r' ||
  c == Char.ofNat 11 || c == Char.ofNat 12

/-- Python `str.strip()`. -/
def trimWs (l : Str) : Str :=
  ((l.dropWhile pyWs).reverse.dropWhile pyWs).reverse

/-- Python `s.split('\n')`. -/
def splitLines : Str → List Str
  | [] => [[]]
  | c :: cs =>
    if c = '\n' then [] :: splitLines cs
    else
      match splitLines cs with
      | [] => [[c]]
      | l :: ls => (c :: l) :: ls

/-- Python `l[-n:]`. -/
def lastN (n : Nat) (l : List α) : List α := l.drop (l.length - n)

/-- A character of the regex class `[A-Za-z0-9_]`. -/
def identChar (c : Char) : Bool :=
  ('A' ≤ c && c ≤ 'Z') || ('a' ≤ c && c ≤ 'z') || ('0' ≤ c && c ≤ '9') || c == '_'

/-- A character of the base58 class `[1-9A-HJ-NP-Za-km-z]`. -/
def b58Char (c : Char) : Bool :=
  ('1' ≤ c && c ≤ '9') || ('A' ≤ c && c ≤ 'H') || ('J' ≤ c && c ≤ 'N') ||
  ('P' ≤ c && c ≤ 'Z') || ('a' ≤ c && c ≤ 'k') || ('m' ≤ c && c ≤ 'z')

/-! ### Generic list facts used throughout -/

theorem isPrefixB_iff_append {p l : Str} :
    isPrefixB p l = true ↔ ∃ t, l = p ++ t := by
  induction p generalizing l with
  | nil => simp [isPrefixB]
  | cons a as ih =>
    cases l with
    | nil => simp [isPrefixB]
    | cons b bs =>
      simp only [isPrefixB, Bool.and_eq_true, beq_iff_eq]
      constructor
      · rintro ⟨rfl, h⟩
        obtain ⟨t, rfl⟩ := ih.mp h
        exact ⟨t, rfl⟩
      · rintro ⟨t, ht⟩
        cases ht
        exact ⟨rfl, ih.mpr ⟨t, rfl⟩⟩

theorem isPrefixB_append (p t : Str) : isPrefixB p (p ++ t) = true :=
  isPrefixB_iff_append.mpr ⟨t, rfl⟩

theorem isPrefixB_length {p l : Str} (h : isPrefixB p l = true) :
    p.length ≤ l.length := by
  obtain ⟨t, rfl⟩ := isPrefixB_iff_append.mp h
  simp

theorem length_dropWhile_le (p : Char → Bool) (l : Str) :
    (l.dropWhile p).length ≤ l.length := by
  induction l with
  | nil => simp [List.dropWhile]
  | cons c cs ih =>
    by_cases h : p c = true
    · simp only [List.dropWhile, h]
      exact Nat.le_succ_of_le ih
    · simp only [List.dropWhile, h]
      simp

theorem mem_takeWhile_sat {p : Char → Bool} :
    ∀ {l : Str} {a : Char}, a ∈ l.takeWhile p → p a = true
  | [], _, h => by simp [List.takeWhile] at h
  | c :: cs, a, h => by
    by_cases hc : p c = true
    · simp only [List.takeWhile_cons, hc, if_true] at h
      rcases List.mem_cons.mp h with rfl | h2
      · exact hc
      · exact mem_takeWhile_sat h2
    · simp [List.takeWhile_cons, hc] at h

theorem takeWhile_append_of {p : Char → Bool} :
    ∀ (xs ys : Str), (∀ a ∈ xs, p a = true) →
      (∀ b, ys.head? = some b → p b = false) →
      (xs ++ ys).takeWhile p = xs ∧ (xs ++ ys).dropWhile p = ys
  | [], ys, _, hy => by
    cases ys with
    | nil => simp
    | cons b bs =>
      have hb := hy b rfl
      simp [List.takeWhile_cons, List.dropWhile_cons, hb]
  | x :: xs, ys, hx, hy => by
    have hx0 : p x = true := hx x (by simp)
    have ih := takeWhile_append_of xs ys (fun a ha => hx a (List.mem_cons_of_mem _ ha)) hy
    simp [List.takeWhile_cons, List.dropWhile_cons, hx0, ih.1, ih.2]

theorem head?_dropWhile_not (p : Char → Bool) :
    ∀ (l : Str) (b : Char), (l.dropWhile p).head? = some b → p b = false
  | [], b, hb => by simp [List.dropWhile] at hb
  | c :: cs, b, hb => by
    by_cases hc : p c = true
    · simp only [List.dropWhile_cons, hc, if_true] at hb
      exact head?_dropWhile_not p cs b hb
    · simp only [List.dropWhile_cons, hc, if_false] at hb
      simp at hb
      rcases hb with ⟨rfl, -⟩
      exact Bool.eq_false_iff.mpr hc

/-! ### The stack-size quick fix
(`contract_updater.py`, `smart_contract_build_loop`, lines 620-624)

`re.sub(r'#\[account\](\s+)pub struct ([A-Za-z0-9_]+)',
        r'#[account]\n#[derive(Default)]\1pub struct \2', contract_code)` -/

def accountAttr : Str := strL "#[account]"
def deriveDefaultIns : Str := strL "\n#[derive(Default)]"
def pubStructTok : Str := strL "pub struct "

/-- One attempt to match the stack-fix pattern at the head of `l`:
on success returns the whitespace run, the identifier run, and the
remainder after the match. -/
def parseStackAt (l : Str) : Option (Str × Str × Str) :=
  if isPrefixB accountAttr l then
    if (List.takeWhile pyWs (l.drop 10)).isEmpty then none
    else if isPrefixB pubStructTok (List.dropWhile pyWs (l.drop 10)) then
      if (List.takeWhile identChar ((List.dropWhile pyWs (l.drop 10)).drop 11)).isEmpty then none
      else some (List.takeWhile pyWs (l.drop 10),
                 List.takeWhile identChar ((List.dropWhile pyWs (l.drop 10)).drop 11),
                 ((List.dropWhile pyWs (l.drop 10)).drop 11).drop
                   (List.takeWhile identChar ((List.dropWhile pyWs (l.drop 10)).drop 11)).length)
    else none
  else none

theorem parseStackAt_rest_length {l : Str} {w i rest : Str}
    (h : parseStackAt l = some (w, i, rest)) : rest.length < l.length := by
  unfold parseStackAt at h
  split_ifs at h with h1 h2 h3 h4
  simp only [Option.some.injEq, Prod.mk.injEq] at h
  obtain ⟨-, -, h5⟩ := h
  have hlen10 : 10 ≤ l.length := by
    have := isPrefixB_length h1
    simpa [accountAttr, strL] using this
  have hd : (l.drop 10).length = l.length - 10 := List.length_drop ..
  have hdw : (List.dropWhile pyWs (l.drop 10)).length ≤ (l.drop 10).length :=
    length_dropWhile_le pyWs (l.drop 10)
  have h11 : ((List.dropWhile pyWs (l.drop 10)).drop 11).length
      = (List.dropWhile pyWs (l.drop 10)).length - 11 := List.length_drop ..
  have hfin : rest.length ≤ ((List.dropWhile pyWs (l.drop 10)).drop 11).length := by
    rw [← h5]
    have := List.length_drop
      (List.takeWhile identChar ((List.dropWhile pyWs (l.drop 10)).drop 11)).length
      ((List.dropWhile pyWs (l.drop 10)).drop 11)
    omega
  omega

/-- The quick fix applied when the build log reports a stack-offset
overflow: `re.sub` inserting `#[derive(Default)]` after `#[account]`. -/
def stackFix (l : Str) : Str :=
  match l with
  | [] => []
  | c :: cs =>
    match h : parseStackAt (c :: cs) with
    | some (w, i, rest) =>
      accountAttr ++ deriveDefaultIns ++ w ++ pubStructTok ++ i ++ stackFix rest
    | none => c :: stackFix cs
termination_by l.length
decreasing_by
  · exact parseStackAt_rest_length h
  · simp

theorem stackFix_nil : stackFix [] = [] := by
  rw [stackFix]

theorem stackFix_cons_some {c : Char} {cs w i rest : Str}
    (h : parseStackAt (c :: cs) = some (w, i, rest)) :
    stackFix (c :: cs)
      = accountAttr ++ deriveDefaultIns ++ w ++ pubStructTok ++ i ++ stackFix rest := by
  rw [stackFix]
  split
  next w' i' rest' h' =>
    rw [h] at h'
    simp only [Option.some.injEq, Prod.mk.injEq] at h'
    obtain ⟨rfl, rfl, rfl⟩ := h'
    simp
  next h' =>
    rw [h] at h'
    exact absurd h' (by simp)

theorem stackFix_cons_none {c : Char} {cs : Str}
    (h : parseStackAt (c :: cs) = none) :
    stackFix (c :: cs) = c :: stackFix cs := by
  rw [stackFix]
  split
  next w' i' rest' h' =>
    rw [h] at h'
    exact absurd h' (by simp)
  next h' => rfl

/-- No suffix of `l` begins a match of the stack-fix pattern. -/
def matchFree (l : Str) : Prop := ∀ n, parseStackAt (l.drop n) = none

theorem parseStackAt_nil : parseStackAt [] = none := by decide

theorem matchFree_nil : matchFree [] := by
  intro n
  simp only [List.drop_nil]
  exact parseStackAt_nil

theorem matchFree_cons {c : Char} {cs : Str} :
    matchFree (c :: cs) ↔ parseStackAt (c :: cs) = none ∧ matchFree cs := by
  constructor
  · intro h
    refine ⟨h 0, fun n => ?_⟩
    have := h (n + 1)
    simpa using this
  · rintro ⟨h0, h⟩ n
    cases n with
    | zero => exact h0
    | succ m => simpa using h m

theorem parseStackAt_none_of_not_prefix {l : Str}
    (h : isPrefixB accountAttr l = false) : parseStackAt l = none := by
  unfold parseStackAt
  simp [h]

theorem accountAttr_decomp : accountAttr = '#' :: strL "[account]" := by decide

theorem parseStackAt_none_of_head {x : Char} {xs : Str} (hx : ¬ x = '#') :
    parseStackAt (x :: xs) = none := by
  apply parseStackAt_none_of_not_prefix
  rw [accountAttr_decomp]
  simp only [isPrefixB, Bool.and_eq_false_iff]
  left
  exact beq_eq_false_iff_ne.mpr (fun h => hx h.symm)

theorem pyWs_ne_hash {a : Char} (h : pyWs a = true) : ¬ a = '#' := by
  intro h'
  subst h'
  exact absurd h (by decide)

theorem identChar_ne_hash {a : Char} (h : identChar a = true) : ¬ a = '#' := by
  intro h'
  subst h'
  exact absurd h (by decide)

theorem matchFree_append_noHash :
    ∀ (X : Str) {T : Str}, (∀ a ∈ X, ¬ a = '#') → matchFree T → matchFree (X ++ T)
  | [], T, _, hT => by simpa using hT
  | x :: X', T, hX, hT => by
    rw [List.cons_append]
    refine matchFree_cons.mpr ⟨parseStackAt_none_of_head (hX x (by simp)), ?_⟩
    exact matchFree_append_noHash X' (fun a ha => hX a (List.mem_cons_of_mem _ ha)) hT

theorem accountAttr_length : accountAttr.length = 10 := by decide

theorem pubStructTok_length : pubStructTok.length = 11 := by decide

/-- A successful match of the stack-fix pattern is exactly a decomposition
into the literal, a nonempty whitespace run, the `pub struct ` literal and
an identifier character. -/
theorem parseStackAt_some_iff {l : Str} :
    (∃ x, parseStackAt l = some x) ↔
    ∃ w i0 t, l = accountAttr ++ (w ++ (pubStructTok ++ i0 :: t)) ∧
      w ≠ [] ∧ (∀ a ∈ w, pyWs a = true) ∧ identChar i0 = true := by
  constructor
  · rintro ⟨x, hx⟩
    unfold parseStackAt at hx
    split_ifs at hx with h1 h2 h3 h4
    obtain ⟨t0, ht0⟩ := isPrefixB_iff_append.mp h1
    have hdrop : l.drop 10 = t0 := by
      rw [ht0, ← accountAttr_length, List.drop_left]
    rw [hdrop] at h2 h3 h4
    obtain ⟨u0, hu0⟩ := isPrefixB_iff_append.mp h3
    have hsplit : t0 = List.takeWhile pyWs t0 ++ (pubStructTok ++ u0) := by
      have h5 : t0 = List.takeWhile pyWs t0 ++ List.dropWhile pyWs t0 :=
        (List.takeWhile_append_dropWhile pyWs t0).symm
      rw [hu0] at h5
      exact h5
    have hdrop11 : (List.dropWhile pyWs t0).drop 11 = u0 := by
      rw [hu0, ← pubStructTok_length, List.drop_left]
    rw [hdrop11] at h4
    cases hu : u0 with
    | nil => rw [hu] at h4; simp [List.takeWhile] at h4
    | cons i0 t' =>
      rw [hu] at h4
      have hi0 : identChar i0 = true := by
        by_contra hi
        rw [List.takeWhile_cons, if_neg hi] at h4
        simp at h4
      refine ⟨List.takeWhile pyWs t0, i0, t', ?_, ?_, ?_, hi0⟩
      · rw [hu] at hsplit
        rw [ht0]
        exact congrArg (fun z => accountAttr ++ z) hsplit
      · intro hcon
        rw [hcon] at h2
        simp at h2
      · intro a ha
        exact mem_takeWhile_sat ha
  · rintro ⟨w, i0, t, rfl, hw, hws, hi⟩
    have hpre : isPrefixB accountAttr
        (accountAttr ++ (w ++ (pubStructTok ++ i0 :: t))) = true := isPrefixB_append ..
    have hdrop : (accountAttr ++ (w ++ (pubStructTok ++ i0 :: t))).drop 10
        = w ++ (pubStructTok ++ i0 :: t) := by
      rw [← accountAttr_length, List.drop_left]
    have hps : pubStructTok = 'p' :: strL "ub struct " := by decide
    have hhead : ∀ b, (pubStructTok ++ i0 :: t).head? = some b → pyWs b = false := by
      intro b hb
      rw [hps] at hb
      simp at hb
      rw [← hb]
      decide
    have htw := takeWhile_append_of w (pubStructTok ++ i0 :: t) hws hhead
    have hdrop11 : (pubStructTok ++ i0 :: t).drop 11 = i0 :: t := by
      rw [← pubStructTok_length, List.drop_left]
    refine ⟨(w, i0 :: List.takeWhile identChar t,
      t.drop (List.takeWhile identChar t).length), ?_⟩
    unfold parseStackAt
    rw [hpre, if_pos rfl, hdrop, htw.1, htw.2]
    rw [if_neg (by simpa using hw), if_pos (isPrefixB_append ..), hdrop11]
    rw [List.takeWhile_cons, if_pos hi]
    simp

/-- `stackFix` only inserts text whose characters cannot start a new
match, so a pattern prefix of the output that contains no `#` was already
a prefix of the input. -/
theorem peel_prefix_of_stackFix :
    ∀ (P : Str), (∀ a ∈ P, ¬ a = '#') →
      ∀ (l : Str), isPrefixB P (stackFix l) = true → isPrefixB P l = true
  | [], _, l, _ => by simp [isPrefixB]
  | p :: P', hP, l, h => by
    cases l with
    | nil => rw [stackFix_nil] at h; simp [isPrefixB] at h
    | cons c cs =>
      cases hp : parseStackAt (c :: cs) with
      | some x =>
        obtain ⟨w, i, rest⟩ := x
        rw [stackFix_cons_some hp, accountAttr_decomp] at h
        simp only [List.cons_append, isPrefixB, Bool.and_eq_true, beq_iff_eq] at h
        exact absurd h.1 (hP p (by simp))
      | none =>
        rw [stackFix_cons_none hp] at h
        simp only [isPrefixB, Bool.and_eq_true] at h ⊢
        exact ⟨h.1, peel_prefix_of_stackFix P'
          (fun a ha => hP a (List.mem_cons_of_mem _ ha)) cs h.2⟩

/-- If the head of the input starts no match, neither does the head of the
partially rewritten tail. -/
theorem parseStackAt_cons_stackFix_none {c : Char} {cs : Str}
    (h : parseStackAt (c :: cs) = none) :
    parseStackAt (c :: stackFix cs) = none := by
  by_contra hne
  have hsome : ∃ x, parseStackAt (c :: stackFix cs) = some x := by
    cases hx : parseStackAt (c :: stackFix cs) with
    | none => exact absurd hx hne
    | some x => exact ⟨x, rfl⟩
  obtain ⟨w, i0, t, heq, hw, hws, hi⟩ := parseStackAt_some_iff.mp hsome
  rw [accountAttr_decomp] at heq
  simp only [List.cons_append] at heq
  injection heq with hc htl
  have htail : stackFix cs = (strL "[account]" ++ (w ++ (pubStructTok ++ [i0]))) ++ t := by
    rw [htl]
    simp
  have hnoh : ∀ a ∈ strL "[account]" ++ (w ++ (pubStructTok ++ [i0])), ¬ a = '#' := by
    intro a ha
    simp only [List.mem_append, List.mem_singleton] at ha
    rcases ha with ha | ha | ha | rfl
    · exact (by decide : ∀ x ∈ strL "[account]", ¬ x = '#') a ha
    · exact pyWs_ne_hash (hws a ha)
    · exact (by decide : ∀ x ∈ pubStructTok, ¬ x = '#') a ha
    · exact identChar_ne_hash hi
  have hpre : isPrefixB (strL "[account]" ++ (w ++ (pubStructTok ++ [i0])))
      (stackFix cs) = true := by
    rw [htail]
    exact isPrefixB_append ..
  have hpre2 := peel_prefix_of_stackFix _ hnoh cs hpre
  obtain ⟨t2, ht2⟩ := isPrefixB_iff_append.mp hpre2
  have : ∃ x, parseStackAt (c :: cs) = some x := by
    apply parseStackAt_some_iff.mpr
    refine ⟨w, i0, t2, ?_, hw, hws, hi⟩
    rw [hc, ht2, accountAttr_decomp]
    simp
  obtain ⟨x, hx⟩ := this
  rw [hx] at h
  exact Option.noConfusion h

theorem parseStackAt_components {l w i rest : Str}
    (h : parseStackAt l = some (w, i, rest)) :
    (∀ a ∈ w, pyWs a = true) ∧ (∀ a ∈ i, identChar a = true) := by
  unfold parseStackAt at h
  split_ifs at h with h1 h2 h3 h4
  simp only [Option.some.injEq, Prod.mk.injEq] at h
  obtain ⟨hw, hi, -⟩ := h
  constructor
  · intro a ha
    rw [← hw] at ha
    exact mem_takeWhile_sat ha
  · intro a ha
    rw [← hi] at ha
    exact mem_takeWhile_sat ha

theorem parseStackAt_repl_head_none (Z : Str) :
    parseStackAt ('#' :: (strL "[account]" ++ ('\n' :: ('#' :: Z)))) = none := by
  have hshape : '#' :: (strL "[account]" ++ ('\n' :: ('#' :: Z)))
      = accountAttr ++ ('\n' :: ('#' :: Z)) := by
    rw [accountAttr_decomp]
    simp
  rw [hshape]
  have h1 : isPrefixB accountAttr (accountAttr ++ ('\n' :: ('#' :: Z))) = true :=
    isPrefixB_append ..
  have hdrop : (accountAttr ++ ('\n' :: ('#' :: Z))).drop 10 = '\n' :: ('#' :: Z) := by
    rw [← accountAttr_length, List.drop_left]
  have htw : List.takeWhile pyWs ('\n' :: ('#' :: Z)) = ['\n'] := by
    rw [List.takeWhile_cons, List.takeWhile_cons]
    simp [(by decide : pyWs '\n' = true), (by decide : pyWs '#' = false)]
  have hdw : List.dropWhile pyWs ('\n' :: ('#' :: Z)) = '#' :: Z := by
    rw [List.dropWhile_cons, List.dropWhile_cons]
    simp [(by decide : pyWs '\n' = true), (by decide : pyWs '#' = false)]
  have hps : isPrefixB pubStructTok ('#' :: Z) = false := by
    rw [show pubStructTok = 'p' :: strL "ub struct " from by decide]
    simp [isPrefixB]
  unfold parseStackAt
  simp [h1, hdrop, htw, hdw, hps]

theorem parseStackAt_derive_head_none (Z : Str) :
    parseStackAt ('#' :: (strL "[derive(Default)]" ++ Z)) = none := by
  apply parseStackAt_none_of_not_prefix
  rw [accountAttr_decomp]
  have hd : strL "[derive(Default)]" = '[' :: 'd' :: strL "erive(Default)]" := by decide
  have ha : strL "[account]" = '[' :: 'a' :: strL "ccount]" := by decide
  rw [hd, ha]
  simp [isPrefixB]

/-- The output of `stackFix` contains no match of the pattern. -/
theorem matchFree_stackFix : ∀ (n : Nat) (l : Str), l.length ≤ n → matchFree (stackFix l)
  | _, [], _ => by rw [stackFix_nil]; exact matchFree_nil
  | 0, c :: cs, hlen => by simp at hlen
  | n + 1, c :: cs, hlen => by
    cases hp : parseStackAt (c :: cs) with
    | none =>
      rw [stackFix_cons_none hp]
      refine matchFree_cons.mpr ⟨parseStackAt_cons_stackFix_none hp, ?_⟩
      exact matchFree_stackFix n cs (by simpa using hlen)
    | some x =>
      obtain ⟨w, i, rest⟩ := x
      rw [stackFix_cons_some hp]
      have hrest : rest.length ≤ n := by
        have h2 := parseStackAt_rest_length hp
        simp only [List.length_cons] at h2 hlen
        omega
      have M0 : matchFree (stackFix rest) := matchFree_stackFix n rest hrest
      obtain ⟨hws, his⟩ := parseStackAt_components hp
      have M1 : matchFree (i ++ stackFix rest) :=
        matchFree_append_noHash i (fun a ha => identChar_ne_hash (his a ha)) M0
      have M2 : matchFree (pubStructTok ++ (i ++ stackFix rest)) :=
        matchFree_append_noHash pubStructTok (by decide) M1
      have M3 : matchFree (w ++ (pubStructTok ++ (i ++ stackFix rest))) :=
        matchFree_append_noHash w (fun a ha => pyWs_ne_hash (hws a ha)) M2
      have M4 : matchFree (strL "[derive(Default)]"
          ++ (w ++ (pubStructTok ++ (i ++ stackFix rest)))) :=
        matchFree_append_noHash _ (by decide) M3
      have M5 : matchFree ('#' :: (strL "[derive(Default)]"
          ++ (w ++ (pubStructTok ++ (i ++ stackFix rest))))) :=
        matchFree_cons.mpr ⟨parseStackAt_derive_head_none _, M4⟩
      have M6 : matchFree ('\n' :: ('#' :: (strL "[derive(Default)]"
          ++ (w ++ (pubStructTok ++ (i ++ stackFix rest)))))) :=
        matchFree_cons.mpr ⟨parseStackAt_none_of_head (by decide), M5⟩
      have M7 : matchFree (strL "[account]" ++ ('\n' :: ('#' :: (strL "[derive(Default)]"
          ++ (w ++ (pubStructTok ++ (i ++ stackFix rest))))))) :=
        matchFree_append_noHash _ (by decide) M6
      have M8 : matchFree ('#' :: (strL "[account]" ++ ('\n' :: ('#' :: (strL "[derive(Default)]"
          ++ (w ++ (pubStructTok ++ (i ++ stackFix rest)))))))) :=
        matchFree_cons.mpr ⟨parseStackAt_repl_head_none _, M7⟩
      have hshape : accountAttr ++ deriveDefaultIns ++ w ++ pubStructTok ++ i ++ stackFix rest
          = '#' :: (strL "[account]" ++ ('\n' :: ('#' :: (strL "[derive(Default)]"
            ++ (w ++ (pubStructTok ++ (i ++ stackFix rest))))))) := by
        rw [accountAttr_decomp, show deriveDefaultIns
          = '\n' :: '#' :: strL "[derive(Default)]" from by decide]
        simp
      rw [hshape]
      exact M8

theorem stackFix_eq_of_matchFree : ∀ (l : Str), matchFree l → stackFix l = l
  | [], _ => stackFix_nil
  | c :: cs, h => by
    obtain ⟨h0, h1⟩ := matchFree_cons.mp h
    rw [stackFix_cons_none h0, stackFix_eq_of_matchFree cs h1]

/-- The stack-offset rewrite is idempotent. -/
theorem stackFix_idem (l : Str) : stackFix (stackFix l) = stackFix l :=
  stackFix_eq_of_matchFree _ (matchFree_stackFix l.length l le_rfl)

/-! ### The idl-build quick fix
(`contract_updater.py`, `smart_contract_build_loop`, lines 629-641) -/

/-- Python `s.replace(pat, repl)` for a nonempty pattern. -/
def replaceAll (pat repl : Str) : Str → Str
  | [] => []
  | c :: cs =>
    if pat.isEmpty then c :: cs
    else if isPrefixB pat (c :: cs) then repl ++ replaceAll pat repl ((c :: cs).drop pat.length)
    else c :: replaceAll pat repl cs
termination_by l => l.length
decreasing_by
  · have h1 : 1 ≤ pat.length := by
      cases pat with
      | nil => simp_all
      | cons p ps => simp
    have h2 : ((c :: cs).drop pat.length).length = (c :: cs).length - pat.length :=
      List.length_drop ..
    simp at h2 ⊢
    omega
  · simp

def featuresHdr : Str := strL "[features]"
def idlBuildLine : Str := strL "idl-build = true"

/-- The in-loop Anchor.toml quick fix: if `idl-build = true` is absent,
replace `[features]` by `[features]\nidl-build = true`. -/
def idlQuickFix (t : Str) : Str :=
  if containsB idlBuildLine t then t
  else replaceAll featuresHdr (featuresHdr ++ '\n' :: idlBuildLine) t

/-- C4: The quick-fix file rewrites of the retry loop are idempotent:
applying the stack-offset rewrite a second time to already-rewritten
contract text yields the identical text, and re-running the idl-build
feature insertion on an Anchor.toml that already contains
`idl-build = true` leaves the file unchanged. -/
theorem c4_quick_fix_rewrites_idempotent :
    (∀ l : Str, stackFix (stackFix l) = stackFix l) ∧
    (∀ t : Str, containsB idlBuildLine t = true → idlQuickFix t = t) :=
  ⟨stackFix_idem, fun _ h => by simp [idlQuickFix, h]⟩

/-- Witness for C4 at concrete inputs. -/
theorem c4_quick_fix_rewrites_idempotent_witness :
    stackFix (stackFix (strL "#[account]\npub struct Escrow"))
        = stackFix (strL "#[account]\npub struct Escrow")
    ∧ idlQuickFix (strL "[features]\nidl-build = true")
        = strL "[features]\nidl-build = true" :=
  ⟨c4_quick_fix_rewrites_idempotent.1 _,
   c4_quick_fix_rewrites_idempotent.2 _ (by decide)⟩

/-! ### Error-log filtering and the error classifier
(`contract_updater.py`, `smart_contract_build_loop`, lines 484-502 and 599-641) -/

def natStr (n : Nat) : Str := (toString n).data

/-- A line is kept when it mentions `error` and not `warning`
(case-insensitively). -/
def errLineKeep (l : Str) : Bool :=
  containsB (strL "error") (lowerStr l) && !(containsB (strL "warning") (lowerStr l))

/-- Lines 604-610: filter the raw build output down to the last ten
stripped error lines. -/
def errFilter (s : Str) : Str :=
  List.intercalate (strL "\n") (lastN 10 (((splitLines s).filter errLineKeep).map trimWs))

/-- Stack-size failure signature (lines 486 and 614). -/
def stackSig (e : Str) : Bool :=
  containsB (strL "Stack offset") e || containsB (strL "exceeded max offset") e

/-- IDL failure signature used for the added prompt instruction (line 494). -/
def idlTouchSig (e : Str) : Bool := containsB (strL "idl-build") e

/-- IDL failure signature used for the Anchor.toml quick fix (line 629). -/
def idlMissingSig (e : Str) : Bool := containsB (strL "idl-build feature is missing") e

def stackInstrText : Str := strL "\n                        1. Minimize large stack variables in all functions\n                        2. Split large structs into smaller components\n                        3. Remove any unnecessary large arrays or buffers\n                        4. Use references instead of copying large data structures\n                        "

def idlInstrText : Str := strL "\n                        Ensure all features are properly defined and imported.\n                        "

/-- Lines 485-497: the fix instructions appended for recognised error
signatures. -/
def specificInstructions (e : Str) : Str :=
  (if stackSig e then stackInstrText else []) ++ (if idlTouchSig e then idlInstrText else [])

/-- Lines 499-502: the update requirement passed to `update_contract` on
attempt `a`, built from the previous attempt's filtered error log. -/
def mkUpdateReq (a : Nat) (e : Str) : Str :=
  let base := strL "Fix compilation errors from attempt " ++ natStr (a - 1) ++ strL ": " ++ e
  if (specificInstructions e).isEmpty then base
  else base ++ strL "\n\nSpecific fixes needed:\n" ++ specificInstructions e

/-! ### Program-id extraction
(`contract_updater.py` lines 198-220, `ai_client.py` lines 41-82) -/

def declOpen : Str := strL "declare_id!(\""
def declClose : Str := strL "\");"
def declIdTok : Str := strL "declare_id!"

/-- Match of `declare_id!\("([1-9A-HJ-NP-Za-km-z]{32,44})"\);` at the
head of `l`, returning the captured base58 run. -/
def parseDeclB58At (l : Str) : Option Str :=
  if isPrefixB declOpen l then
    if 32 ≤ (List.takeWhile b58Char (l.drop 13)).length ∧
        (List.takeWhile b58Char (l.drop 13)).length ≤ 44 then
      if isPrefixB declClose (List.dropWhile b58Char (l.drop 13)) then
        some (List.takeWhile b58Char (l.drop 13))
      else none
    else none
  else none

/-- `re.search`: the first position at which the pattern matches. -/
def scanDeclB58 : Str → Option Str
  | [] => none
  | c :: cs =>
    match parseDeclB58At (c :: cs) with
    | some r => some r
    | none => scanDeclB58 cs

/-- `extract_program_id_from_contract` (lines 198-220). -/
def extractProgramIdFromContract (code : Str) : Option Str :=
  if code.isEmpty then none else scanDeclB58 code

def notQuote (c : Char) : Bool := !(c == '"')

/-- Match of `declare_id!\("([^"]*)"\);` at the head of `l`, returning
the remainder after the match. -/
def parseDeclAnyAt (l : Str) : Option Str :=
  if isPrefixB declOpen l then
    if isPrefixB declClose (List.dropWhile notQuote (l.drop 13)) then
      some ((List.dropWhile notQuote (l.drop 13)).drop 3)
    else none
  else none

theorem parseDeclAnyAt_rest_length {l rest : Str}
    (h : parseDeclAnyAt l = some rest) : rest.length < l.length := by
  unfold parseDeclAnyAt at h
  split_ifs at h with h1 h2
  simp only [Option.some.injEq] at h
  have hlen13 : 13 ≤ l.length := by
    have := isPrefixB_length h1
    simpa [declOpen, strL] using this
  have hd : (l.drop 13).length = l.length - 13 := List.length_drop ..
  have hdw : (List.dropWhile notQuote (l.drop 13)).length ≤ (l.drop 13).length :=
    length_dropWhile_le notQuote (l.drop 13)
  have hfin : rest.length ≤ (List.dropWhile notQuote (l.drop 13)).length := by
    rw [← h]
    have := List.length_drop 3 (List.dropWhile notQuote (l.drop 13))
    omega
  omega

/-- `re.sub(r'declare_id!\("([^"]*)"\);', f'declare_id!("pid");', code)`. -/
def replaceDeclareId (pid : Str) : Str → Str
  | [] => []
  | c :: cs =>
    match h : parseDeclAnyAt (c :: cs) with
    | some rest => (declOpen ++ pid ++ declClose) ++ replaceDeclareId pid rest
    | none => c :: replaceDeclareId pid cs
termination_by l => l.length
decreasing_by
  · exact parseDeclAnyAt_rest_length h
  · simp

/-- Index of the first `;`, as used by `code.find(";")`. -/
def firstSemi : Str → Option Nat
  | [] => none
  | c :: cs => if c = ';' then some 0 else (firstSemi cs).map (· + 1)

/-- `code[:code.find(";") + 1] + ins + code[code.find(";") + 1:]`;
`find` returning `-1` makes the insertion happen at position 0. -/
def insertAfterSemi (ins : Str) (c : Str) : Str :=
  match firstSemi c with
  | some k => c.take (k + 1) ++ ins ++ c.drop (k + 1)
  | none => ins ++ c

def declStmt (pid : Str) : Str := declOpen ++ pid ++ declClose

/-- Lines 556-567 of the build loop: substitute the program id into the
contract, inserting a fresh `declare_id!` after the first `;` when the
macro is absent. -/
def setDeclareId (pid c : Str) : Str :=
  let c1 := replaceDeclareId pid c
  if containsB declIdTok c1 then c1
  else insertAfterSemi (strL "\n\n" ++ declStmt pid ++ strL "\n\n") c1

/-- `update_contract` lines 152-166: force the resolved program id into
the returned code when it is not already present. -/
def ensureProgramId (pid c : Str) : Str :=
  if containsB pid c then c
  else if containsB declIdTok c then replaceDeclareId pid c
  else insertAfterSemi (strL "\n\n" ++ declStmt pid ++ strL "\n\n") c

/-- External state consulted by `extract_program_id_from_deployed_contract`
(`ai_client.py` lines 41-82): `deploy/program-info.json` (absent, or its
`programId` field), `lib.rs` content, and the keypair-derived pubkey when
the keypair file exists and `solana-keygen` succeeds. -/
structure DeployedLookupEnv where
  programInfoId : Option (Option Str)
  libRs : Option Str
  keypairPubkey : Option Str

def extractProgramIdFromDeployedContract (e : DeployedLookupEnv) : Option Str :=
  match e.programInfoId with
  | some (some pid) => some pid
  | _ =>
    match e.libRs with
    | some content =>
      match scanDeclB58 content with
      | some pid => some pid
      | none => e.keypairPubkey
    | none => e.keypairPubkey

/-! ### JSON values and recorded file writes -/

inductive J where
  | s (v : Str)
  | b (v : Bool)
  | null
  | o (fields : List (Str × J))

inductive FileContent where
  | rust (code : Str)
  | toml (t : Str)
  | json (v : J)

def libRsPath : Str := strL "deploy/programs/deploy/src/lib.rs"
def programInfoPath : Str := strL "deploy/program-info.json"
def anchorTomlPath : Str := strL "deploy/Anchor.toml"
def cargoTomlPath : Str := strL "deploy/programs/deploy/Cargo.toml"
def testConfigPath : Str := strL "back/test-config.json"

def programInfoJson (pid ct time : Str) : J :=
  J.o [(strL "programId", J.s pid), (strL "contractType", J.s ct),
       (strL "buildTime", J.s time)]

/-! ### The build loop
(`contract_updater.py`, `smart_contract_build_loop`, lines 453-654)

External outcomes of one iteration: the generation / update results of
the LLM calls, the `anchor build` exit status and captured output, and
the keypair-derived `solana address` result.  OS-level read/write
failures (which the loop folds into its generic exception handler) are
modelled as the corresponding file being absent. -/

structure AttemptEnv where
  genResult : Option Str
  updResult : Option Str
  buildOk : Bool
  buildStderr : Str
  buildStdout : Str
  keypairExists : Bool
  solanaAddr : Option Str
  buildTime : Str

structure AttemptRec where
  attempt : Nat
  genCalled : Bool
  updateReq : Option Str
  codeOk : Bool
  buildOk : Bool
  infoWrite : Option (Str × Str × Str)
  qfStack : Bool
  qfIdl : Bool
  pidAfter : Option Str
  elogAfter : Str
  libAfter : Option Str
  tomlAfter : Option Str
  fsWrites : List (Str × FileContent)

structure LoopOut where
  success : Bool
  pid : Option Str
  recs : List AttemptRec

structure GenOut where
  code : Option Str
  pid : Option Str
  lib : Option Str
  req : Option Str
  writes : List (Str × FileContent)

def codeFalsy : Option Str → Bool
  | none => true
  | some s => s.isEmpty

/-- Lines 463-509: generate on the first attempt, otherwise read `lib.rs`
and, when it holds code, re-invoke `update_contract` with the error-log
derived requirement (updating the tracked program id first). -/
def genPhase (e : AttemptEnv) (a : Nat) (pid : Option Str) (elog : Str)
    (lib : Option Str) : GenOut :=
  if a = 1 then
    match e.genResult with
    | some c => ⟨some c, pid, some c, none, [(libRsPath, .rust c)]⟩
    | none => ⟨none, pid, lib, none, []⟩
  else
    match lib with
    | none => ⟨none, pid, lib, none, []⟩
    | some c =>
      if c.isEmpty then ⟨some c, pid, lib, none, []⟩
      else
        let pid1 := match extractProgramIdFromContract c with
          | some x => some x
          | none => pid
        match e.updResult with
        | some u => ⟨some u, pid1, some u, some (mkUpdateReq a elog), [(libRsPath, .rust u)]⟩
        | none => ⟨none, pid1, lib, some (mkUpdateReq a elog), []⟩

structure SuccOut where
  pid : Option Str
  lib : Option Str
  writes : List (Str × FileContent)

/-- Lines 538-585: on a successful build, derive the program id from the
deploy keypair and force it into `lib.rs` when absent. -/
def succPhase (e : AttemptEnv) (pid : Option Str) (lib : Option Str) : SuccOut :=
  if e.keypairExists then
    match e.solanaAddr with
    | some addr =>
      match lib with
      | some c =>
        if containsB (declStmt addr) c then ⟨some addr, lib, []⟩
        else ⟨some addr, some (setDeclareId addr c), [(libRsPath, .rust (setDeclareId addr c))]⟩
      | none => ⟨some addr, lib, []⟩
    | none => ⟨pid, lib, []⟩
  else ⟨pid, lib, []⟩

/-- The `while attempt < max_attempts` loop, lines 459-654.  `rem` is the
number of attempts left, `a` the number of the next attempt. -/
def runAttempts (env : Nat → AttemptEnv) (ct : Str) :
    Nat → Nat → Option Str → Str → Option Str → Option Str → LoopOut
  | 0, _, pid, _, _, _ => ⟨false, pid, []⟩
  | rem + 1, a, pid, elog, lib, toml =>
    let e := env a
    let g := genPhase e a pid elog lib
    if codeFalsy g.code then
      let out := runAttempts env ct rem (a + 1) g.pid elog g.lib toml
      ⟨out.success, out.pid,
        ⟨a, a == 1, g.req, false, false, none, false, false, g.pid, elog,
          g.lib, toml, g.writes⟩ :: out.recs⟩
    else if e.buildOk then
      let s := succPhase e g.pid g.lib
      ⟨true, s.pid,
        [⟨a, a == 1, g.req, true, true,
          (match s.pid with | some p => some (p, ct, e.buildTime) | none => none),
          false, false, s.pid, elog, s.lib, toml,
          g.writes ++ s.writes ++
            (match s.pid with
             | some p => [(programInfoPath, .json (programInfoJson p ct e.buildTime))]
             | none => [])⟩]⟩
    else
      let raw := if e.buildStderr.isEmpty then e.buildStdout else e.buildStderr
      let elog1 := errFilter raw
      let qS := stackSig elog1
      let lib2 := if qS then Option.map stackFix g.lib else g.lib
      let qI := idlMissingSig elog1
      let toml2 := if qI then Option.map idlQuickFix toml else toml
      let out := runAttempts env ct rem (a + 1) g.pid elog1 lib2 toml2
      ⟨out.success, out.pid,
        ⟨a, a == 1, g.req, true, false, none, qS, qI, g.pid, elog1, lib2, toml2,
          g.writes ++
            (if qS then
              (match lib2 with | some c => [(libRsPath, .rust c)] | none => [])
             else []) ++
            (if qI then
              (match toml with
               | some t => if containsB idlBuildLine t then [] else [(anchorTomlPath, .toml (idlQuickFix t))]
               | none => [])
             else [])⟩ :: out.recs⟩

/-- The retry-loop stage of `smart_contract_build_loop(contract_type,
schema, max_attempts)`: `attempt = 0`, `program_id = None`,
`error_log = ""` before the loop.  `tomlInit` is the `Anchor.toml` state
the loop starts from; the full function, with the pre-loop `Anchor.toml`
/ `Cargo.toml` processing of lines 399-451, is
`smartContractBuildLoopFull` below. -/
def smartContractBuildLoop (env : Nat → AttemptEnv) (ct : Str) (maxAttempts : Nat)
    (libInit tomlInit : Option Str) : LoopOut :=
  runAttempts env ct maxAttempts 1 none [] libInit tomlInit

/-- Lines 399-413: pre-loop `Anchor.toml` processing — when the file
exists and lacks the substring `idl-build`, insert
`idl-build = true` after `[features]` and write the file back (the
same replacement as the in-loop quick fix, under the broader guard
`'idl-build' not in anchor_toml`). -/
def preprocessAnchorToml : Option Str → Option Str × List (Str × FileContent)
  | none => (none, [])
  | some t =>
    if containsB (strL "idl-build") t then (some t, [])
    else
      (some (replaceAll featuresHdr (featuresHdr ++ '\n' :: idlBuildLine) t),
       [(anchorTomlPath, .toml (replaceAll featuresHdr (featuresHdr ++ '\n' :: idlBuildLine) t))])

def cargoIdlRepl : Str := strL "[features]\nidl-build = [\"anchor-lang/idl-build\"]"

def cargoAnchorLangOld : Str := strL "anchor-lang = \x7b workspace = true \x7d"

def cargoAnchorLangNew : Str :=
  strL "anchor-lang = \x7b workspace = true, features = [\"init-if-needed\"] \x7d"

def profileReleaseBlock : Str :=
  strL "\n[profile.release]\noverflow-checks = true\nlto = \"fat\"\ncodegen-units = 1\n[profile.release.build-override]\nopt-level = 3\nincremental = false\ncodegen-units = 1\n"

/-- Lines 415-451: pre-loop `Cargo.toml` processing — three guarded
edits (idl-build feature insertion, init-if-needed feature on
anchor-lang, appended `[profile.release]` optimization block), then an
unconditional write-back whenever the file exists, edited or not. -/
def preprocessCargoToml : Option Str → Option Str × List (Str × FileContent)
  | none => (none, [])
  | some t =>
    let t1 := if containsB (strL "idl-build") t then t
      else replaceAll featuresHdr cargoIdlRepl t
    let t2 := if containsB (strL "init-if-needed") t1 then t1
      else replaceAll cargoAnchorLangOld cargoAnchorLangNew t1
    let t3 := if containsB (strL "[profile.release]") t2 then t2
      else t2 ++ profileReleaseBlock
    (some t3, [(cargoTomlPath, .toml t3)])

/-- `smart_contract_build_loop` in full (lines 370-654): the pre-loop
`Anchor.toml` / `Cargo.toml` processing of lines 399-451 followed by
the retry loop, which starts from the processed `Anchor.toml` state;
the second component collects every file write the function performs,
pre-processing writes first. -/
def smartContractBuildLoopFull (env : Nat → AttemptEnv) (ct : Str) (maxAttempts : Nat)
    (libInit anchorInit cargoInit : Option Str) :
    LoopOut × List (Str × FileContent) :=
  (smartContractBuildLoop env ct maxAttempts libInit (preprocessAnchorToml anchorInit).1,
   ((preprocessAnchorToml anchorInit).2 ++ (preprocessCargoToml cargoInit).2) ++
     ((smartContractBuildLoop env ct maxAttempts libInit
         (preprocessAnchorToml anchorInit).1).recs.map AttemptRec.fsWrites).flatten)

/-- The program id returned when the loop exhausts its budget: the last
value of the `program_id` variable. -/
def lastPidAux (p : Option Str) : List AttemptRec → Option Str
  | [] => p
  | r :: rs => lastPidAux r.pidAfter rs

theorem stackFix_ne_nil {c : Char} {cs : Str} : stackFix (c :: cs) ≠ [] := by
  cases hp : parseStackAt (c :: cs) with
  | none => rw [stackFix_cons_none hp]; simp
  | some x =>
    obtain ⟨w, i, rest⟩ := x
    rw [stackFix_cons_some hp, accountAttr_decomp]
    simp

theorem genPhase_req (e : AttemptEnv) (a : Nat) (pid : Option Str) (elog : Str)
    (lib : Option Str) :
    (genPhase e a pid elog lib).req = none
    ∨ (genPhase e a pid elog lib).req = some (mkUpdateReq a elog) := by
  unfold genPhase
  split_ifs with h1
  · cases e.genResult <;> simp
  · cases lib with
    | none => simp
    | some c =>
      by_cases hc : c.isEmpty = true
      · simp [hc]
      · cases e.updResult <;> simp [hc]

/-- Core loop invariants: at most `rem` records, consecutively numbered
attempts, success exactly on a 0-exit build which ends the loop, and on
exhaustion the budget is used in full and the last tracked program id is
returned. -/
theorem runAttempts_main (env : Nat → AttemptEnv) (ct : Str) :
    ∀ (rem a : Nat) (pid : Option Str) (elog : Str) (lib toml : Option Str),
      (runAttempts env ct rem a pid elog lib toml).recs.length ≤ rem
      ∧ (∀ i r, (runAttempts env ct rem a pid elog lib toml).recs[i]? = some r →
          r.attempt = a + i)
      ∧ ((runAttempts env ct rem a pid elog lib toml).success = true ↔
          ∃ r ∈ (runAttempts env ct rem a pid elog lib toml).recs, r.buildOk = true)
      ∧ (∀ i r, (runAttempts env ct rem a pid elog lib toml).recs[i]? = some r →
          r.buildOk = true → i + 1 = (runAttempts env ct rem a pid elog lib toml).recs.length)
      ∧ ((runAttempts env ct rem a pid elog lib toml).success = false →
          (runAttempts env ct rem a pid elog lib toml).recs.length = rem
          ∧ (runAttempts env ct rem a pid elog lib toml).pid
              = lastPidAux pid (runAttempts env ct rem a pid elog lib toml).recs) := by
  intro rem
  induction rem with
  | zero =>
    intro a pid elog lib toml
    simp [runAttempts, lastPidAux]
  | succ rem ih =>
    intro a pid elog lib toml
    by_cases hfal : codeFalsy (genPhase (env a) a pid elog lib).code = true
    · obtain ⟨ih1, ih2, ih3, ih4, ih5⟩ :=
        ih (a + 1) (genPhase (env a) a pid elog lib).pid elog
          (genPhase (env a) a pid elog lib).lib toml
      simp only [runAttempts, if_pos hfal]
      refine ⟨?_, ?_, ?_, ?_, ?_⟩
      · simp only [List.length_cons]
        omega
      · intro i r hr
        cases i with
        | zero =>
          simp only [List.getElem?_cons_zero, Option.some.injEq] at hr
          rw [← hr]
          simp
        | succ i =>
          simp only [List.getElem?_cons_succ] at hr
          have := ih2 i r hr
          omega
      · constructor
        · intro hs
          obtain ⟨r, hr, hb⟩ := ih3.mp hs
          exact ⟨r, List.mem_cons_of_mem _ hr, hb⟩
        · rintro ⟨r, hr, hb⟩
          rcases List.mem_cons.mp hr with rfl | hr2
          · simp at hb
          · exact ih3.mpr ⟨r, hr2, hb⟩
      · intro i r hr hb
        cases i with
        | zero =>
          simp only [List.getElem?_cons_zero, Option.some.injEq] at hr
          rw [← hr] at hb
          simp at hb
        | succ i =>
          simp only [List.getElem?_cons_succ] at hr
          have := ih4 i r hr hb
          simp only [List.length_cons]
          omega
      · intro hs
        obtain ⟨h1, h2⟩ := ih5 hs
        refine ⟨by simp only [List.length_cons]; omega, ?_⟩
        simpa [lastPidAux] using h2
    · by_cases hbo : (env a).buildOk = true
      · simp only [runAttempts, if_neg hfal, if_pos hbo]
        refine ⟨by simp, ?_, ?_, ?_, ?_⟩
        · intro i r hr
          cases i with
          | zero =>
            simp only [List.getElem?_cons_zero, Option.some.injEq] at hr
            rw [← hr]
            simp
          | succ i => simp at hr
        · simp
        · intro i r hr hb
          cases i with
          | zero => simp
          | succ i => simp at hr
        · intro hs
          simp at hs
      · obtain ⟨ih1, ih2, ih3, ih4, ih5⟩ :=
          ih (a + 1) (genPhase (env a) a pid elog lib).pid
            (errFilter (if (env a).buildStderr.isEmpty then (env a).buildStdout
              else (env a).buildStderr))
            (if stackSig (errFilter (if (env a).buildStderr.isEmpty then (env a).buildStdout
                else (env a).buildStderr)) then
              Option.map stackFix (genPhase (env a) a pid elog lib).lib
             else (genPhase (env a) a pid elog lib).lib)
            (if idlMissingSig (errFilter (if (env a).buildStderr.isEmpty then (env a).buildStdout
                else (env a).buildStderr)) then
              Option.map idlQuickFix toml
             else toml)
        simp only [runAttempts, if_neg hfal, if_neg hbo]
        refine ⟨?_, ?_, ?_, ?_, ?_⟩
        · simp only [List.length_cons]
          omega
        · intro i r hr
          cases i with
          | zero =>
            simp only [List.getElem?_cons_zero, Option.some.injEq] at hr
            rw [← hr]
            simp
          | succ i =>
            simp only [List.getElem?_cons_succ] at hr
            have := ih2 i r hr
            omega
        · constructor
          · intro hs
            obtain ⟨r, hr, hb⟩ := ih3.mp hs
            exact ⟨r, List.mem_cons_of_mem _ hr, hb⟩
          · rintro ⟨r, hr, hb⟩
            rcases List.mem_cons.mp hr with rfl | hr2
            · simp at hb
            · exact ih3.mpr ⟨r, hr2, hb⟩
        · intro i r hr hb
          cases i with
          | zero =>
            simp only [List.getElem?_cons_zero, Option.some.injEq] at hr
            rw [← hr] at hb
            simp at hb
          | succ i =>
            simp only [List.getElem?_cons_succ] at hr
            have := ih4 i r hr hb
            simp only [List.length_cons]
            omega
        · intro hs
          obtain ⟨h1, h2⟩ := ih5 hs
          refine ⟨by simp only [List.length_cons]; omega, ?_⟩
          simpa [lastPidAux] using h2

/-- C1: for every contract type, schema and `max_attempts`, the loop runs
at most `max_attempts` generate-build iterations, numbered consecutively
from 1; it returns `(True, program_id)` exactly when an `anchor build`
exits with code 0, which immediately ends the loop; and when the budget
is exhausted without a successful build it returns `(False, last-known
program id)`. -/
theorem c1_build_loop_budget (env : Nat → AttemptEnv) (ct : Str) (maxAttempts : Nat)
    (libInit tomlInit : Option Str) :
    (smartContractBuildLoop env ct maxAttempts libInit tomlInit).recs.length ≤ maxAttempts
    ∧ (∀ i r, (smartContractBuildLoop env ct maxAttempts libInit tomlInit).recs[i]? = some r →
        r.attempt = i + 1)
    ∧ ((smartContractBuildLoop env ct maxAttempts libInit tomlInit).success = true ↔
        ∃ r ∈ (smartContractBuildLoop env ct maxAttempts libInit tomlInit).recs,
          r.buildOk = true)
    ∧ (∀ i r, (smartContractBuildLoop env ct maxAttempts libInit tomlInit).recs[i]? = some r →
        r.buildOk = true →
        i + 1 = (smartContractBuildLoop env ct maxAttempts libInit tomlInit).recs.length)
    ∧ ((smartContractBuildLoop env ct maxAttempts libInit tomlInit).success = false →
        (smartContractBuildLoop env ct maxAttempts libInit tomlInit).recs.length = maxAttempts
        ∧ (smartContractBuildLoop env ct maxAttempts libInit tomlInit).pid
            = lastPidAux none (smartContractBuildLoop env ct maxAttempts libInit tomlInit).recs) := by
  obtain ⟨h1, h2, h3, h4, h5⟩ := runAttempts_main env ct maxAttempts 1 none [] libInit tomlInit
  exact ⟨h1, fun i r hr => by rw [h2 i r hr]; omega, h3, h4, h5⟩

def c1Env : Nat → AttemptEnv := fun _ =>
  ⟨some (strL "contract v1"), some (strL "contract v2"), false,
   strL "error: E", [], false, none, strL "t"⟩

/-- Witness for C1: two failing attempts exhaust a budget of 2. -/
theorem c1_build_loop_budget_witness :
    (smartContractBuildLoop c1Env (strL "escrow") 2 none none).recs.length = 2
    ∧ (smartContractBuildLoop c1Env (strL "escrow") 2 none none).pid
        = lastPidAux none (smartContractBuildLoop c1Env (strL "escrow") 2 none none).recs
    ∧ ((smartContractBuildLoop c1Env (strL "escrow") 2 none none).recs.map
        AttemptRec.attempt) = [1, 2] := by
  have h := c1_build_loop_budget c1Env (strL "escrow") 2 none none
  obtain ⟨hlen, hpid⟩ := h.2.2.2.2 (by decide)
  exact ⟨hlen, hpid, by decide⟩

/-! ### Lemmas for the retry-loop prompt feedback (C2) -/

theorem succPhase_pid {e : AttemptEnv} {pid lib : Option Str} {addr : Str}
    (hk : e.keypairExists = true) (ha : e.solanaAddr = some addr) :
    (succPhase e pid lib).pid = some addr := by
  unfold succPhase
  rw [if_pos hk, ha]
  cases lib with
  | none => simp
  | some c =>
    by_cases hc : containsB (declStmt addr) c = true
    · simp [hc]
    · simp [hc]

theorem runAttempts_head_req (env : Nat → AttemptEnv) (ct : Str)
    (rem a : Nat) (pid : Option Str) (elog : Str) (lib toml : Option Str)
    (r : AttemptRec) (q : Str)
    (hr : (runAttempts env ct (rem + 1) a pid elog lib toml).recs[0]? = some r)
    (hq : r.updateReq = some q) : q = mkUpdateReq a elog := by
  by_cases hfal : codeFalsy (genPhase (env a) a pid elog lib).code = true
  · simp only [runAttempts, if_pos hfal, List.getElem?_cons_zero, Option.some.injEq] at hr
    rw [← hr] at hq
    rcases genPhase_req (env a) a pid elog lib with h | h
    · rw [h] at hq
      exact absurd hq (by simp)
    · rw [h] at hq
      simp only [Option.some.injEq] at hq
      exact hq.symm
  · by_cases hbo : (env a).buildOk = true
    · simp only [runAttempts, if_neg hfal, if_pos hbo, List.getElem?_cons_zero,
        Option.some.injEq] at hr
      rw [← hr] at hq
      rcases genPhase_req (env a) a pid elog lib with h | h
      · rw [h] at hq
        exact absurd hq (by simp)
      · rw [h] at hq
        simp only [Option.some.injEq] at hq
        exact hq.symm
    · simp only [runAttempts, if_neg hfal, if_neg hbo, List.getElem?_cons_zero,
        Option.some.injEq] at hr
      rw [← hr] at hq
      rcases genPhase_req (env a) a pid elog lib with h | h
      · rw [h] at hq
        exact absurd hq (by simp)
      · rw [h] at hq
        simp only [Option.some.injEq] at hq
        exact hq.symm

theorem runAttempts_linkage (env : Nat → AttemptEnv) (ct : Str) :
    ∀ (rem a : Nat) (pid : Option Str) (elog : Str) (lib toml : Option Str)
      (i : Nat) (r r' : AttemptRec) (q : Str),
      (runAttempts env ct rem a pid elog lib toml).recs[i]? = some r →
      (runAttempts env ct rem a pid elog lib toml).recs[i + 1]? = some r' →
      r'.updateReq = some q → q = mkUpdateReq (a + i + 1) r.elogAfter := by
  intro rem
  induction rem with
  | zero =>
    intro a pid elog lib toml i r r' q hr
    simp [runAttempts] at hr
  | succ rem ih =>
    intro a pid elog lib toml i r r' q hr hr' hq
    by_cases hfal : codeFalsy (genPhase (env a) a pid elog lib).code = true
    · simp only [runAttempts, if_pos hfal] at hr hr'
      cases i with
      | zero =>
        simp only [List.getElem?_cons_zero, Option.some.injEq] at hr
        simp only [List.getElem?_cons_succ] at hr'
        cases rem with
        | zero => simp [runAttempts] at hr'
        | succ rem2 =>
          have := runAttempts_head_req env ct rem2 (a + 1)
            (genPhase (env a) a pid elog lib).pid elog
            (genPhase (env a) a pid elog lib).lib toml r' q hr' hq
          rw [this, ← hr]
      | succ i =>
        simp only [List.getElem?_cons_succ] at hr hr'
        have := ih (a + 1) (genPhase (env a) a pid elog lib).pid elog
          (genPhase (env a) a pid elog lib).lib toml i r r' q hr hr' hq
        rw [this]
        congr 1
        omega
    · by_cases hbo : (env a).buildOk = true
      · simp only [runAttempts, if_neg hfal, if_pos hbo] at hr'
        cases i with
        | zero => simp at hr'
        | succ i => simp at hr'
      · simp only [runAttempts, if_neg hfal, if_neg hbo] at hr hr'
        cases i with
        | zero =>
          simp only [List.getElem?_cons_zero, Option.some.injEq] at hr
          simp only [List.getElem?_cons_succ] at hr'
          cases rem with
          | zero => simp [runAttempts] at hr'
          | succ rem2 =>
            have := runAttempts_head_req env ct rem2 (a + 1)
              (genPhase (env a) a pid elog lib).pid
              (errFilter (if (env a).buildStderr.isEmpty then (env a).buildStdout
                else (env a).buildStderr))
              (if stackSig (errFilter (if (env a).buildStderr.isEmpty then (env a).buildStdout
                  else (env a).buildStderr)) then
                Option.map stackFix (genPhase (env a) a pid elog lib).lib
               else (genPhase (env a) a pid elog lib).lib)
              (if idlMissingSig (errFilter (if (env a).buildStderr.isEmpty
                  then (env a).buildStdout else (env a).buildStderr)) then
                Option.map idlQuickFix toml
               else toml) r' q hr' hq
            rw [this, ← hr]
        | succ i =>
          simp only [List.getElem?_cons_succ] at hr hr'
          have := ih (a + 1) (genPhase (env a) a pid elog lib).pid
            (errFilter (if (env a).buildStderr.isEmpty then (env a).buildStdout
              else (env a).buildStderr))
            (if stackSig (errFilter (if (env a).buildStderr.isEmpty then (env a).buildStdout
                else (env a).buildStderr)) then
              Option.map stackFix (genPhase (env a) a pid elog lib).lib
             else (genPhase (env a) a pid elog lib).lib)
            (if idlMissingSig (errFilter (if (env a).buildStderr.isEmpty
                then (env a).buildStdout else (env a).buildStderr)) then
              Option.map idlQuickFix toml
             else toml) i r r' q hr hr' hq
          rw [this]
          congr 1
          omega

theorem stackFix_preserve_ne_nil {c : Str} (hc : c ≠ []) : stackFix c ≠ [] := by
  cases c with
  | nil => exact absurd rfl hc
  | cons x xs => exact stackFix_ne_nil

/-- `update_contract` never returns an empty string (its extractor returns
`None` for empty payloads), so from attempt 2 on, with a nonempty `lib.rs`,
every attempt issues an update request. -/
theorem runAttempts_updateReq_isSome (env : Nat → AttemptEnv) (ct : Str)
    (hupd : ∀ k, (env k).updResult ≠ some ([] : Str)) :
    ∀ (rem a : Nat) (pid : Option Str) (elog : Str) (c : Str) (toml : Option Str),
      2 ≤ a → c ≠ [] →
      ∀ (i : Nat) (r : AttemptRec),
        (runAttempts env ct rem a pid elog (some c) toml).recs[i]? = some r →
        ∃ q, r.updateReq = some q := by
  intro rem
  induction rem with
  | zero =>
    intro a pid elog c toml ha hc i r hr
    simp [runAttempts] at hr
  | succ rem ih =>
    intro a pid elog c toml ha hc i r hr
    have ha1 : ¬ a = 1 := by omega
    have hce : ¬ c.isEmpty = true := by simpa using hc
    cases hu : (env a).updResult with
    | none =>
      have hgen : genPhase (env a) a pid elog (some c) =
          ⟨none,
           (match extractProgramIdFromContract c with | some x => some x | none => pid),
           some c, some (mkUpdateReq a elog), []⟩ := by
        unfold genPhase
        rw [if_neg ha1]
        simp [hce, hu]
      have hfal : codeFalsy (genPhase (env a) a pid elog (some c)).code = true := by
        rw [hgen]
        rfl
      simp only [runAttempts, if_pos hfal] at hr
      cases i with
      | zero =>
        simp only [List.getElem?_cons_zero, Option.some.injEq] at hr
        rw [← hr, hgen]
        exact ⟨mkUpdateReq a elog, rfl⟩
      | succ i =>
        simp only [List.getElem?_cons_succ] at hr
        rw [hgen] at hr
        exact ih (a + 1) _ elog c toml (by omega) hc i r hr
    | some u =>
      have hune : u ≠ [] := by
        intro he
        exact hupd a (by rw [hu, he])
      have hgen : genPhase (env a) a pid elog (some c) =
          ⟨some u,
           (match extractProgramIdFromContract c with | some x => some x | none => pid),
           some u, some (mkUpdateReq a elog), [(libRsPath, .rust u)]⟩ := by
        unfold genPhase
        rw [if_neg ha1]
        simp [hce, hu]
      have hfal : ¬ codeFalsy (genPhase (env a) a pid elog (some c)).code = true := by
        rw [hgen]
        simpa [codeFalsy] using hune
      by_cases hbo : (env a).buildOk = true
      · simp only [runAttempts, if_neg hfal, if_pos hbo] at hr
        cases i with
        | zero =>
          simp only [List.getElem?_cons_zero, Option.some.injEq] at hr
          rw [← hr, hgen]
          exact ⟨mkUpdateReq a elog, rfl⟩
        | succ i => simp at hr
      · simp only [runAttempts, if_neg hfal, if_neg hbo] at hr
        cases i with
        | zero =>
          simp only [List.getElem?_cons_zero, Option.some.injEq] at hr
          rw [← hr, hgen]
          exact ⟨mkUpdateReq a elog, rfl⟩
        | succ i =>
          simp only [List.getElem?_cons_succ] at hr
          rw [hgen] at hr
          by_cases hqs : stackSig (errFilter (if (env a).buildStderr.isEmpty
              then (env a).buildStdout else (env a).buildStderr)) = true
          · rw [if_pos hqs] at hr
            simp only [Option.map_some] at hr
            exact ih (a + 1) _ _ (stackFix u) _ (by omega) (stackFix_preserve_ne_nil hune) i r hr
          · rw [if_neg hqs] at hr
            exact ih (a + 1) _ _ u _ (by omega) hune i r hr

/-- On the successful attempt, with the keypair present and `solana
address` succeeding, the loop returns that address and records it in
`deploy/program-info.json`. -/
theorem runAttempts_success_clause (env : Nat → AttemptEnv) (ct : Str) :
    ∀ (rem a : Nat) (pid : Option Str) (elog : Str) (lib toml : Option Str)
      (i : Nat) (r : AttemptRec) (addr : Str),
      (runAttempts env ct rem a pid elog lib toml).recs[i]? = some r →
      r.buildOk = true →
      (env (a + i)).keypairExists = true → (env (a + i)).solanaAddr = some addr →
      (runAttempts env ct rem a pid elog lib toml).success = true
      ∧ (runAttempts env ct rem a pid elog lib toml).pid = some addr
      ∧ r.infoWrite = some (addr, ct, (env (a + i)).buildTime)
      ∧ (programInfoPath, FileContent.json (programInfoJson addr ct (env (a + i)).buildTime))
          ∈ r.fsWrites := by
  intro rem
  induction rem with
  | zero =>
    intro a pid elog lib toml i r addr hr
    simp [runAttempts] at hr
  | succ rem ih =>
    intro a pid elog lib toml i r addr hr hb hk ha
    by_cases hfal : codeFalsy (genPhase (env a) a pid elog lib).code = true
    · simp only [runAttempts, if_pos hfal] at hr ⊢
      cases i with
      | zero =>
        simp only [List.getElem?_cons_zero, Option.some.injEq] at hr
        rw [← hr] at hb
        simp at hb
      | succ i =>
        simp only [List.getElem?_cons_succ] at hr
        have hidx : a + (i + 1) = (a + 1) + i := by omega
        rw [hidx] at hk ha ⊢
        exact ih (a + 1) _ elog _ toml i r addr hr hb hk ha
    · by_cases hbo : (env a).buildOk = true
      · simp only [runAttempts, if_neg hfal, if_pos hbo] at hr ⊢
        cases i with
        | zero =>
          simp only [List.getElem?_cons_zero, Option.some.injEq] at hr
          simp only [Nat.add_zero] at hk ha ⊢
          have hpid := @succPhase_pid (env a) (genPhase (env a) a pid elog lib).pid
            (genPhase (env a) a pid elog lib).lib addr hk ha
          rw [← hr]
          refine ⟨by trivial, by rw [hpid], ?_, ?_⟩
          · simp only [hpid]
          · simp only [hpid]
            simp
        | succ i => simp at hr
      · simp only [runAttempts, if_neg hfal, if_neg hbo] at hr ⊢
        cases i with
        | zero =>
          simp only [List.getElem?_cons_zero, Option.some.injEq] at hr
          rw [← hr] at hb
          simp at hb
        | succ i =>
          simp only [List.getElem?_cons_succ] at hr
          have hidx : a + (i + 1) = (a + 1) + i := by omega
          rw [hidx] at hk ha ⊢
          exact ih (a + 1) _ _ _ _ i r addr hr hb hk ha

theorem mkUpdateReq_append (a : Nat) (e : Str) :
    ∃ pre post, mkUpdateReq a e = pre ++ (e ++ post) := by
  unfold mkUpdateReq
  by_cases h : (specificInstructions e).isEmpty = true
  · refine ⟨strL "Fix compilation errors from attempt " ++ natStr (a - 1) ++ strL ": ",
      [], ?_⟩
    simp [h]
  · refine ⟨strL "Fix compilation errors from attempt " ++ natStr (a - 1) ++ strL ": ",
      strL "\n\nSpecific fixes needed:\n" ++ specificInstructions e, ?_⟩
    simp [h]

/-- C2: assuming the first attempt generated (nonempty) contract code —
which `generate_smart_contract` guarantees whenever it returns — every
later attempt re-invokes `update_contract`, and the requirement it is
invoked with is `mkUpdateReq` of the previous attempt's filtered error
log, which embeds that error text; on the first successful build, with
the deploy keypair present and `solana address` succeeding, the loop
returns the extracted address and writes programId, contractType and
buildTime to `deploy/program-info.json`. -/
theorem c2_retry_prompts_and_id_recording (env : Nat → AttemptEnv) (ct : Str)
    (maxAttempts : Nat) (libInit tomlInit : Option Str) (c0 : Str)
    (hgen : (env 1).genResult = some c0) (hc0 : c0 ≠ [])
    (hupd : ∀ k, (env k).updResult ≠ some ([] : Str)) :
    (∀ (i : Nat) (r : AttemptRec),
        (smartContractBuildLoop env ct maxAttempts libInit tomlInit).recs[i]? = some r →
        1 ≤ i → ∃ q, r.updateReq = some q)
    ∧ (∀ (i : Nat) (r r' : AttemptRec) (q : Str),
        (smartContractBuildLoop env ct maxAttempts libInit tomlInit).recs[i]? = some r →
        (smartContractBuildLoop env ct maxAttempts libInit tomlInit).recs[i + 1]? = some r' →
        r'.updateReq = some q → q = mkUpdateReq (i + 2) r.elogAfter)
    ∧ (∀ (b : Nat) (e : Str), ∃ pre post, mkUpdateReq b e = pre ++ (e ++ post))
    ∧ (∀ (i : Nat) (r : AttemptRec) (addr : Str),
        (smartContractBuildLoop env ct maxAttempts libInit tomlInit).recs[i]? = some r →
        r.buildOk = true →
        (env (i + 1)).keypairExists = true → (env (i + 1)).solanaAddr = some addr →
        (smartContractBuildLoop env ct maxAttempts libInit tomlInit).success = true
        ∧ (smartContractBuildLoop env ct maxAttempts libInit tomlInit).pid = some addr
        ∧ r.infoWrite = some (addr, ct, (env (i + 1)).buildTime)
        ∧ (programInfoPath,
            FileContent.json (programInfoJson addr ct (env (i + 1)).buildTime)) ∈ r.fsWrites) := by
  refine ⟨?_, ?_, mkUpdateReq_append, ?_⟩
  · intro i r hr hi
    unfold smartContractBuildLoop at hr
    cases maxAttempts with
    | zero => simp [runAttempts] at hr
    | succ m =>
      have hg : genPhase (env 1) 1 none [] libInit
          = ⟨some c0, none, some c0, none, [(libRsPath, .rust c0)]⟩ := by
        unfold genPhase
        simp [hgen]
      have hfal : ¬ codeFalsy (genPhase (env 1) 1 none [] libInit).code = true := by
        rw [hg]
        simpa [codeFalsy] using hc0
      by_cases hbo : (env 1).buildOk = true
      · simp only [runAttempts, if_neg hfal, if_pos hbo] at hr
        cases i with
        | zero => omega
        | succ i => simp at hr
      · simp only [runAttempts, if_neg hfal, if_neg hbo] at hr
        cases i with
        | zero => omega
        | succ i =>
          simp only [List.getElem?_cons_succ, hg] at hr
          by_cases hqs : stackSig (errFilter (if (env 1).buildStderr.isEmpty
              then (env 1).buildStdout else (env 1).buildStderr)) = true
          · rw [if_pos hqs] at hr
            exact runAttempts_updateReq_isSome env ct hupd m 2 _ _ (stackFix c0) _
              (by omega) (stackFix_preserve_ne_nil hc0) i r hr
          · rw [if_neg hqs] at hr
            exact runAttempts_updateReq_isSome env ct hupd m 2 _ _ c0 _
              (by omega) hc0 i r hr
  · intro i r r' q hr hr' hq
    have := runAttempts_linkage env ct maxAttempts 1 none [] libInit tomlInit i r r' q hr hr' hq
    rw [this]
    congr 1
    omega
  · intro i r addr hr hb hk ha
    have hidx : i + 1 = 1 + i := by omega
    rw [hidx] at hk ha ⊢
    exact runAttempts_success_clause env ct maxAttempts 1 none [] libInit tomlInit i r addr
      hr hb hk ha

def c2Pid : Str := strL "8a76RhBfP78tuN2WtZaP11ESgeCStcfb9E78Pf9wz4Yg"

def c2Env : Nat → AttemptEnv := fun k =>
  if k = 1 then
    ⟨some (strL "use anchor;"), none, false, strL "error: bad", [], false, none, strL "t1"⟩
  else
    ⟨none, some (strL "use anchor2;"), true, [], [], true, some c2Pid, strL "t2"⟩

/-- Witness for C2: a failing first build followed by a successful second
build; the second attempt's update requirement embeds the filtered error
text, and the success is recorded with the keypair-derived id. -/
theorem c2_retry_prompts_and_id_recording_witness :
    (((smartContractBuildLoop c2Env (strL "escrow") 2 none none).recs[1]?).map
        AttemptRec.updateReq)
      = some (some (mkUpdateReq 2 (strL "error: bad")))
    ∧ (smartContractBuildLoop c2Env (strL "escrow") 2 none none).success = true
    ∧ (smartContractBuildLoop c2Env (strL "escrow") 2 none none).pid = some c2Pid
    ∧ mkUpdateReq 2 (strL "error: bad")
        = strL "Fix compilation errors from attempt " ++ natStr 1 ++ strL ": "
          ++ (strL "error: bad" ++ []) := by
  have T := c2_retry_prompts_and_id_recording c2Env (strL "escrow") 2 none none
    (strL "use anchor;") rfl (by decide) (fun k => by
      unfold c2Env
      by_cases hk : k = 1
      · rw [if_pos hk]
        decide
      · rw [if_neg hk]
        decide)
  have hr0s : ((smartContractBuildLoop c2Env (strL "escrow") 2 none none).recs[0]?).isSome
      = true := by decide
  have hr1s : ((smartContractBuildLoop c2Env (strL "escrow") 2 none none).recs[1]?).isSome
      = true := by decide
  rcases hr0 : (smartContractBuildLoop c2Env (strL "escrow") 2 none none).recs[0]? with _ | r0
  · rw [hr0] at hr0s
    simp at hr0s
  rcases hr1 : (smartContractBuildLoop c2Env (strL "escrow") 2 none none).recs[1]? with _ | r1
  · rw [hr1] at hr1s
    simp at hr1s
  obtain ⟨q, hq⟩ := T.1 1 r1 hr1 (by omega)
  have hlink := T.2.1 0 r0 r1 q hr0 hr1 hq
  have he0 : r0.elogAfter = strL "error: bad" := by
    have : ((smartContractBuildLoop c2Env (strL "escrow") 2 none none).recs[0]?).map
        AttemptRec.elogAfter = some (strL "error: bad") := by decide
    rw [hr0] at this
    simpa using this
  have hb1 : r1.buildOk = true := by
    have : ((smartContractBuildLoop c2Env (strL "escrow") 2 none none).recs[1]?).map
        AttemptRec.buildOk = some true := by decide
    rw [hr1] at this
    simpa using this
  obtain ⟨hsucc, hpid, -, -⟩ := T.2.2.2 1 r1 c2Pid hr1 hb1 (by decide) (by decide)
  refine ⟨?_, hsucc, hpid, by decide⟩
  show some r1.updateReq = some (some (mkUpdateReq 2 (strL "error: bad")))
  rw [hq, hlink, he0]

/-! ### C3: what the error classifier actually matches -/

def c3BorrowLog : Str :=
  strL "error[E0502]: cannot borrow escrow.amount as mutable because it is also borrowed as immutable"

def c3QmarkLog : Str :=
  strL "error[E0277]: the ? operator can only be applied to values that implement Try"

def c3Env : Nat → AttemptEnv := fun _ =>
  ⟨some (strL "use anchor;"), some (strL "use anchor v2;"), false, c3BorrowLog, [],
   false, none, strL "t"⟩

/-- Counterexample to C3: on a borrow/move error and on a disallowed-`?`
error the classifier adds no fix instruction and the loop applies no
quick fix: over a two-attempt run failing with a borrow error, no quick
fix fires and the second attempt's update requirement carries the bare
error text with no added instructions. -/
theorem c3_counterexample :
    specificInstructions c3BorrowLog = []
    ∧ specificInstructions c3QmarkLog = []
    ∧ stackSig c3BorrowLog = false ∧ idlMissingSig c3BorrowLog = false
    ∧ stackSig c3QmarkLog = false ∧ idlMissingSig c3QmarkLog = false
    ∧ ((smartContractBuildLoop c3Env (strL "escrow") 2 none none).recs.map
        AttemptRec.qfStack) = [false, false]
    ∧ ((smartContractBuildLoop c3Env (strL "escrow") 2 none none).recs.map
        AttemptRec.qfIdl) = [false, false]
    ∧ (((smartContractBuildLoop c3Env (strL "escrow") 2 none none).recs[1]?).map
        AttemptRec.updateReq)
      = some (some (strL "Fix compilation errors from attempt 1: " ++ c3BorrowLog)) := by
  decide

/-- C3 amended: the classifier matches exactly two failure signatures —
stack-size overflow (`Stack offset` / `exceeded max offset`) and the
missing idl-build feature (`idl-build` / `idl-build feature is missing`).
When a signature matches, the corresponding fix instruction is put into
the next prompt and/or the corresponding quick fix is applied to
`lib.rs` / `Anchor.toml` before the next attempt. -/
theorem c3_two_signature_classifier :
    (∀ e : Str, stackSig e = true → ∃ s, specificInstructions e = stackInstrText ++ s)
    ∧ (∀ e : Str, idlTouchSig e = true → ∃ p, specificInstructions e = p ++ idlInstrText)
    ∧ (∀ (env : Nat → AttemptEnv) (ct : Str) (rem a : Nat) (pid : Option Str)
        (elog : Str) (lib toml : Option Str) (r : AttemptRec),
        (runAttempts env ct (rem + 1) a pid elog lib toml).recs[0]? = some r →
        r.codeOk = true → r.buildOk = false →
        r.elogAfter = errFilter (if (env a).buildStderr.isEmpty then (env a).buildStdout
            else (env a).buildStderr)
        ∧ r.qfStack = stackSig r.elogAfter
        ∧ r.qfIdl = idlMissingSig r.elogAfter
        ∧ (r.qfStack = true →
            r.libAfter = Option.map stackFix (genPhase (env a) a pid elog lib).lib)
        ∧ (r.qfIdl = true → r.tomlAfter = Option.map idlQuickFix toml)) := by
  refine ⟨?_, ?_, ?_⟩
  · intro e h
    exact ⟨(if idlTouchSig e then idlInstrText else []), by simp [specificInstructions, h]⟩
  · intro e h
    exact ⟨(if stackSig e then stackInstrText else []), by simp [specificInstructions, h]⟩
  · intro env ct rem a pid elog lib toml r hr hcode hbuild
    by_cases hfal : codeFalsy (genPhase (env a) a pid elog lib).code = true
    · simp only [runAttempts, if_pos hfal, List.getElem?_cons_zero, Option.some.injEq] at hr
      rw [← hr] at hcode
      simp at hcode
    · by_cases hbo : (env a).buildOk = true
      · simp only [runAttempts, if_neg hfal, if_pos hbo, List.getElem?_cons_zero,
          Option.some.injEq] at hr
        rw [← hr] at hbuild
        simp at hbuild
      · simp only [runAttempts, if_neg hfal, if_neg hbo, List.getElem?_cons_zero,
          Option.some.injEq] at hr
        rw [← hr]
        refine ⟨rfl, rfl, rfl, ?_, ?_⟩
        · intro hq
          simp only at hq
          simp only [hq, if_true]
        · intro hq
          simp only at hq
          simp only [hq, if_true]

def c3IdlLog : Str := strL "error: idl-build feature is missing"

def c3EnvW : Nat → AttemptEnv := fun _ =>
  ⟨some (strL "use a;"), some (strL "use b;"), false, c3IdlLog, [], false, none, strL "t"⟩

def c3StackLog : Str := strL "error: Stack offset of 4096 exceeded max offset"

/-- Witness for the amended C3: on a missing-idl-feature failure the
Anchor.toml quick fix fires, and a stack-offset log receives the
stack-fix instructions. -/
theorem c3_two_signature_classifier_witness :
    (specificInstructions c3StackLog).take stackInstrText.length = stackInstrText
    ∧ (((smartContractBuildLoop c3EnvW (strL "escrow") 1 none none).recs[0]?).map
        AttemptRec.qfIdl) = some true
    ∧ (((smartContractBuildLoop c3EnvW (strL "escrow") 1 none none).recs[0]?).map
        AttemptRec.tomlAfter) = some none := by
  have T := c3_two_signature_classifier
  obtain ⟨s, hs⟩ := T.1 c3StackLog (by decide)
  have h0s : ((smartContractBuildLoop c3EnvW (strL "escrow") 1 none none).recs[0]?).isSome
      = true := by decide
  rcases h0 : (smartContractBuildLoop c3EnvW (strL "escrow") 1 none none).recs[0]? with _ | r
  · rw [h0] at h0s
    simp at h0s
  have hcode : r.codeOk = true := by
    have h2 : ((smartContractBuildLoop c3EnvW (strL "escrow") 1 none none).recs[0]?).map
        AttemptRec.codeOk = some true := by decide
    rw [h0] at h2
    simpa using h2
  have hbuild : r.buildOk = false := by
    have h2 : ((smartContractBuildLoop c3EnvW (strL "escrow") 1 none none).recs[0]?).map
        AttemptRec.buildOk = some false := by decide
    rw [h0] at h2
    simpa using h2
  obtain ⟨helog, hqs, hqi, hlib, htoml⟩ :=
    T.2.2 c3EnvW (strL "escrow") 0 1 none [] none none r h0 hcode hbuild
  have hqi2 : r.qfIdl = true := by
    rw [hqi, helog]
    decide
  refine ⟨by rw [hs]; exact List.take_left .., ?_, ?_⟩
  · simp [hqi2]
  · simp [htoml hqi2]

/-! ### `update_contract`'s file writes
(`contract_updater.py`, lines 168-189) -/

/-- The writes performed after a successful update: the chosen output
path first, then the standard `lib.rs` path when the chosen path
differs. -/
def updateContractWrites (outputPath : Option Str) (code : Str) : List (Str × Str) :=
  (outputPath.getD libRsPath, code) ::
    (if outputPath.getD libRsPath ≠ libRsPath then [(libRsPath, code)] else [])

/-! ### `ContractAutomation.deploy_contract`
(`automation.py`, lines 184-228) -/

def promptCond (l : Str) : Bool :=
  containsB (strL "Continue?") l || containsB (strL "Would you like to airdrop") l

/-- One `y\n` answer per prompting stdout line. -/
def promptResponses (lines : List Str) : List Str :=
  (lines.filter promptCond).map (fun _ => strL "y\n")

/-- The deploy runner: answers prompts, then succeeds exactly on exit
code 0; any exception yields `False`. -/
def autoDeployContract (lines : List Str) (exitCode : Nat) (raised : Bool) :
    Bool × List Str :=
  if raised then (false, [])
  else ((exitCode == 0 : Bool), promptResponses lines)

/-! ### `deploy_contract` of `deploy_contract.py` (lines 160-264) -/

structure CfgWrite where
  programId : Str
  isMock : Option Bool
deriving DecidableEq

def mockPid : Str := strL "5xot9PVdxmjKsgfgc4KX7Gfp3f3SJszQNkyxNHr4bTAw"

/-- Match of `pubkey=([1-9A-HJ-NP-Za-km-z]{32,44})` at the head. -/
def parsePubkeyAt (l : Str) : Option Str :=
  if isPrefixB (strL "pubkey=") l then
    if 32 ≤ (List.takeWhile b58Char (l.drop 7)).length then
      some ((List.takeWhile b58Char (l.drop 7)).take 44)
    else none
  else none

def scanPubkey : Str → Option Str
  | [] => none
  | c :: cs =>
    match parsePubkeyAt (c :: cs) with
    | some r => some r
    | none => scanPubkey cs

/-- External outcomes of one `deploy_contract()` run; `raises` covers an
exception reaching the outer handler. -/
structure DeployPyEnv where
  validatorOk : Bool
  configSetOk : Bool
  buildOk : Bool
  deployOk : Bool
  deployStderr : Str
  deployStdout : Str
  keypairPid : Option Str
  raises : Bool

/-- Returns the program id (or `None` only when `solana config set`
fails) and the `test-config.json` writes performed. -/
def deployContractPy (e : DeployPyEnv) : Option Str × List CfgWrite :=
  if e.raises then (some mockPid, [⟨mockPid, some true⟩])
  else if !e.validatorOk then (some mockPid, [⟨mockPid, some true⟩])
  else if !e.configSetOk then (none, [])
  else if !e.buildOk then (some mockPid, [⟨mockPid, some true⟩])
  else if !e.deployOk then
    (if containsB (strL "Connection refused") (e.deployStderr ++ e.deployStdout) then
      (some mockPid, [⟨mockPid, some true⟩])
    else
      match scanPubkey (e.deployStderr ++ e.deployStdout) with
      | some pid => (some pid, [⟨pid, none⟩])
      | none => (some mockPid, [⟨mockPid, some true⟩]))
  else
    match e.keypairPid with
    | some pid => (some pid, [⟨pid, none⟩])
    | none => (some mockPid, [⟨mockPid, some true⟩])

/-! ### The FastAPI surface (`back/main.py`) -/

structure ContractData where
  ctype : Str
  name : Str
  params : J
  contract : Str
  deployed : Bool
  program_id : Option Str
  updated : Bool := false
  build_success : Bool := false

abbrev Contracts := List (Str × ContractData)

def lookupC : Contracts → Str → Option ContractData
  | [], _ => none
  | (k, v) :: t, key => if k = key then some v else lookupC t key

def setC : Contracts → Str → ContractData → Contracts
  | [], key, v => [(key, v)]
  | (k, w) :: t, key, v => if k = key then (key, v) :: t else (k, w) :: setC t key v

structure Resp where
  status : Nat
  body : J

def notFoundResp : Resp := ⟨404, J.o [(strL "error", J.s (strL "Contract not found"))]⟩

structure GenEndpointEnv where
  uuid : Str
  genResult : Option Str

/-- `POST /api/generate-contract` (lines 41-77). -/
def generateContractEndpoint (cs : Contracts) (ctype cname : Str) (params : J)
    (e : GenEndpointEnv) : Resp × Contracts × List (Str × FileContent) :=
  match e.genResult with
  | none =>
    (⟨500, J.o [(strL "error",
        J.s (strL "Failed to generate contract. Check server logs for details."))]⟩, cs, [])
  | some code =>
    (⟨200, J.o [(strL "contract_id", J.s e.uuid),
        (strL "message", J.s (strL "Contract generated successfully"))]⟩,
     setC cs e.uuid ⟨ctype, cname, params, code, false, none, false, false⟩,
     [(libRsPath, .rust code)])

/-- `POST /api/update-contract/{contract_id}` (lines 79-112). -/
def updateContractEndpoint (cs : Contracts) (cid : Str) (updResult : Option Str) :
    Resp × Contracts × List (Str × FileContent) :=
  match lookupC cs cid with
  | none => (notFoundResp, cs, [])
  | some d =>
    match updResult with
    | none =>
      (⟨500, J.o [(strL "error",
          J.s (strL "Contract update failed. Check server logs for details."))]⟩, cs, [])
    | some u =>
      (⟨200, J.o [(strL "contract_id", J.s cid),
          (strL "message", J.s (strL "Contract updated successfully"))]⟩,
       setC cs cid { d with contract := u, updated := true },
       [(strL "contracts/" ++ cid ++ strL "/updated_contract.rs", .rust u)])

/-- `POST /api/deploy-contract/{contract_id}` (lines 114-140): a mock
deployment whose program id is a dash-stripped uuid prefix. -/
def deployContractEndpoint (cs : Contracts) (cid uuid : Str) :
    Resp × Contracts × List (Str × FileContent) :=
  match lookupC cs cid with
  | none => (notFoundResp, cs, [])
  | some d =>
    (⟨200, J.o [(strL "program_id", J.s ((uuid.take 32).filter (fun c => !(c == '-')))),
        (strL "contract_id", J.s cid),
        (strL "message", J.s (strL "Contract successfully deployed (mock deployment)")),
        (strL "note", J.s (strL "This is a simulated deployment with mock data"))]⟩,
     setC cs cid
       { d with
         deployed := true
         program_id := some ((uuid.take 32).filter (fun c => !(c == '-'))) }, [])

/-- `GET /api/view-contract/{contract_id}` (lines 142-153). -/
def viewContract (cs : Contracts) (cid : Str) : Resp × Contracts :=
  match lookupC cs cid with
  | none => (notFoundResp, cs)
  | some d =>
    (⟨200, J.o [(strL "contract", J.s d.contract), (strL "name", J.s d.name),
        (strL "type", J.s d.ctype)]⟩, cs)

/-- `GET /api/download-contract/{contract_id}` (lines 155-161). -/
def downloadContract (cs : Contracts) (cid : Str) : Resp × Contracts :=
  match lookupC cs cid with
  | none => (notFoundResp, cs)
  | some d => (⟨200, J.o [(strL "contract", J.s d.contract)]⟩, cs)

structure BuildEndpointEnv where
  uuid : Str
  loopEnv : Nat → AttemptEnv
  libInit : Option Str
  tomlInit : Option Str
  cargoInit : Option Str

/-- `POST /api/build-contract` (lines 186-247): runs
`smart_contract_build_loop` — its pre-loop toml processing included —
and, on success, stores the built `lib.rs` content under a fresh uuid. -/
def buildContractEndpoint (cs : Contracts) (ctype cname : Str) (params : J)
    (maxAttempts : Nat) (e : BuildEndpointEnv) :
    Resp × Contracts × List (Str × FileContent) :=
  let out := (smartContractBuildLoopFull e.loopEnv ctype maxAttempts
    e.libInit e.tomlInit e.cargoInit).1
  let allWrites := (smartContractBuildLoopFull e.loopEnv ctype maxAttempts
    e.libInit e.tomlInit e.cargoInit).2
  if !out.success then
    (⟨500, J.o [(strL "error", J.s
        (strL "Failed to build contract after multiple attempts. Check server logs for details."))]⟩,
     cs, allWrites)
  else
    match (out.recs.getLast?).bind AttemptRec.libAfter with
    | none =>
      (⟨500, J.o [(strL "error", J.s (strL "Contract file not found after build."))]⟩,
       cs, allWrites)
    | some code =>
      (⟨200, J.o [(strL "contract_id", J.s e.uuid),
          (strL "program_id", match out.pid with | some p => J.s p | none => J.null),
          (strL "message", J.s (strL "Contract built successfully. Ready for manual deployment.")),
          (strL "build_success", J.b true), (strL "lib_rs_path", J.s libRsPath)]⟩,
       setC cs e.uuid ⟨ctype, cname, params, code, false, out.pid, false, true⟩,
       allWrites)

/-- Modelled from the spec: "storing contract state in an in-memory dict
optionally persisted to a JSON file" — the JSON serialization such a
persistence would write for one contract entry. -/
def contractDataJson (d : ContractData) : J :=
  J.o [(strL "type", J.s d.ctype), (strL "name", J.s d.name),
       (strL "parameters", d.params), (strL "contract", J.s d.contract),
       (strL "deployed", J.b d.deployed),
       (strL "program_id", match d.program_id with | some p => J.s p | none => J.null)]

/-- Modelled from the spec: the JSON serialization of the whole
contract-state dict. -/
def specDictPersistJson (cs : Contracts) : J :=
  J.o (cs.map (fun kv => (kv.1, contractDataJson kv.2)))

def isJsonWrite (w : Str × FileContent) : Bool :=
  match w.2 with
  | .json _ => true
  | _ => false

/-- C6: `update_contract` always persists the returned code to the fixed
`lib.rs` path; with a different explicit output path the identical text
is written to both that path and `lib.rs`, and every write carries the
same contents. -/
theorem c6_update_contract_mirrors (p code : Str) :
    updateContractWrites none code = [(libRsPath, code)]
    ∧ (p ≠ libRsPath →
        (p, code) ∈ updateContractWrites (some p) code
        ∧ (libRsPath, code) ∈ updateContractWrites (some p) code)
    ∧ (∀ w ∈ updateContractWrites (some p) code, w.2 = code) := by
  refine ⟨by simp [updateContractWrites], ?_, ?_⟩
  · intro hp
    simp [updateContractWrites, hp]
  · intro w hw
    unfold updateContractWrites at hw
    by_cases hp : p = libRsPath
    · simp [hp] at hw
      rw [hw]
    · simp [hp] at hw
      rcases hw with hw | hw <;> rw [hw]

/-- Witness for C6 at a distinct explicit path. -/
theorem c6_update_contract_mirrors_witness :
    (strL "alt.rs", strL "code0") ∈ updateContractWrites (some (strL "alt.rs")) (strL "code0")
    ∧ (libRsPath, strL "code0") ∈ updateContractWrites (some (strL "alt.rs")) (strL "code0")
    ∧ updateContractWrites none (strL "code0") = [(libRsPath, strL "code0")]
    ∧ (libRsPath, strL "code0").2 = strL "code0" := by
  have h := c6_update_contract_mirrors (strL "alt.rs") (strL "code0")
  obtain ⟨h1, h2⟩ := h.2.1 (by decide)
  exact ⟨h1, h2, h.1, h.2.2 _ h2⟩

/-- C7: while the deployment script runs, every stdout line containing
`Continue?` or `Would you like to airdrop` is answered with `y\n` on
stdin, and the runner returns True exactly when the script exits 0 and
no exception occurred. -/
theorem c7_deploy_answers_prompts (lines : List Str) (exitCode : Nat) (raised : Bool) :
    ((autoDeployContract lines exitCode raised).1 = true ↔ exitCode = 0 ∧ raised = false)
    ∧ (raised = false →
        (autoDeployContract lines exitCode raised).2
          = (lines.filter promptCond).map (fun _ => strL "y\n")
        ∧ (autoDeployContract lines exitCode raised).2.length
          = (lines.filter promptCond).length
        ∧ ∀ resp ∈ (autoDeployContract lines exitCode raised).2, resp = strL "y\n") := by
  constructor
  · cases raised with
    | true => simp [autoDeployContract]
    | false => simp [autoDeployContract]
  · intro hr
    subst hr
    refine ⟨by simp [autoDeployContract, promptResponses], ?_, ?_⟩
    · simp [autoDeployContract, promptResponses]
    · intro resp hresp
      have hresp2 : resp ∈ (lines.filter promptCond).map (fun _ => strL "y\n") := by
        simpa [autoDeployContract, promptResponses] using hresp
      obtain ⟨l, -, heq⟩ := List.mem_map.mp hresp2
      exact heq.symm

/-- Witness for C7: two prompting lines receive two `y\n` answers and a
0 exit yields True. -/
theorem c7_deploy_answers_prompts_witness :
    (autoDeployContract [strL "Deploying program", strL "Continue? [y/n]",
        strL "Would you like to airdrop 1 SOL?"] 0 false).1 = true
    ∧ (autoDeployContract [strL "Deploying program", strL "Continue? [y/n]",
        strL "Would you like to airdrop 1 SOL?"] 0 false).2
      = [strL "y\n", strL "y\n"]
    ∧ (autoDeployContract [] 1 false).1 = false := by
  have h := c7_deploy_answers_prompts [strL "Deploying program", strL "Continue? [y/n]",
    strL "Would you like to airdrop 1 SOL?"] 0 false
  have h2 := (h.2 rfl).1
  refine ⟨h.1.mpr ⟨rfl, rfl⟩, ?_, by decide⟩
  rw [h2]
  decide

/-! ### C8: program-id extraction -/

theorem scanDeclB58_first : ∀ (code : Str) (pid : Str), scanDeclB58 code = some pid →
    ∃ n, parseDeclB58At (code.drop n) = some pid
      ∧ ∀ m < n, parseDeclB58At (code.drop m) = none
  | [], pid, h => by simp [scanDeclB58] at h
  | c :: cs, pid, h => by
    rw [scanDeclB58] at h
    cases hp : parseDeclB58At (c :: cs) with
    | some r =>
      rw [hp] at h
      simp only [Option.some.injEq] at h
      exact ⟨0, by simpa [h] using hp, by omega⟩
    | none =>
      rw [hp] at h
      obtain ⟨n, h1, h2⟩ := scanDeclB58_first cs pid h
      refine ⟨n + 1, by simpa using h1, ?_⟩
      intro m hm
      cases m with
      | zero => exact hp
      | succ m => simpa using h2 m (by omega)

theorem scanDeclB58_none : ∀ (code : Str),
    (∀ n, parseDeclB58At (code.drop n) = none) → scanDeclB58 code = none
  | [], _ => by simp [scanDeclB58]
  | c :: cs, h => by
    rw [scanDeclB58]
    have h0 := h 0
    simp only [List.drop_zero] at h0
    rw [h0]
    exact scanDeclB58_none cs (fun n => by simpa using h (n + 1))

theorem parseDeclB58At_shape {l pid : Str} (h : parseDeclB58At l = some pid) :
    (∀ a ∈ pid, b58Char a = true) ∧ 32 ≤ pid.length ∧ pid.length ≤ 44
    ∧ ∃ t, l = declOpen ++ (pid ++ (declClose ++ t)) := by
  unfold parseDeclB58At at h
  split_ifs at h with h1 h2 h3
  simp only [Option.some.injEq] at h
  obtain ⟨t0, ht0⟩ := isPrefixB_iff_append.mp h1
  have hdrop : l.drop 13 = t0 := by
    rw [ht0, show (13 : Nat) = declOpen.length from by decide, List.drop_left]
  obtain ⟨u0, hu0⟩ := isPrefixB_iff_append.mp h3
  refine ⟨?_, ?_, ?_, ⟨u0, ?_⟩⟩
  · intro a ha
    rw [← h] at ha
    exact mem_takeWhile_sat ha
  · rw [← h, hdrop]
    rw [hdrop] at h2
    exact h2.1
  · rw [← h, hdrop]
    rw [hdrop] at h2
    exact h2.2
  · rw [ht0]
    rw [hdrop] at h hu0
    have hsplit : t0 = List.takeWhile b58Char t0 ++ List.dropWhile b58Char t0 :=
      (List.takeWhile_append_dropWhile b58Char t0).symm
    rw [hu0, h] at hsplit
    rw [hsplit]

/-- C8: `extract_program_id_from_contract` returns `None` on empty input;
any returned id is the captured base58 group (32-44 base58 characters
inside a literal `declare_id!("...");`) of the first position at which
the pattern matches, and when no position matches it returns `None`.
`extract_program_id_from_deployed_contract` falls back in order:
`program-info.json`'s programId, then the `declare_id!` regex over
`lib.rs`, then the keypair-derived pubkey. -/
theorem c8_program_id_extraction :
    extractProgramIdFromContract [] = none
    ∧ (∀ (code pid : Str), extractProgramIdFromContract code = some pid →
        (∃ n, parseDeclB58At (code.drop n) = some pid
          ∧ ∀ m < n, parseDeclB58At (code.drop m) = none)
        ∧ (∀ a ∈ pid, b58Char a = true) ∧ 32 ≤ pid.length ∧ pid.length ≤ 44)
    ∧ (∀ (l pid : Str), parseDeclB58At l = some pid →
        ∃ t, l = declOpen ++ (pid ++ (declClose ++ t)))
    ∧ (∀ code : Str, (∀ n, parseDeclB58At (code.drop n) = none) →
        extractProgramIdFromContract code = none)
    ∧ (∀ (e : DeployedLookupEnv) (pid : Str), e.programInfoId = some (some pid) →
        extractProgramIdFromDeployedContract e = some pid)
    ∧ (∀ (e : DeployedLookupEnv) (content pid : Str),
        (e.programInfoId = none ∨ e.programInfoId = some none) →
        e.libRs = some content → scanDeclB58 content = some pid →
        extractProgramIdFromDeployedContract e = some pid)
    ∧ (∀ (e : DeployedLookupEnv) (content : Str),
        (e.programInfoId = none ∨ e.programInfoId = some none) →
        e.libRs = some content → scanDeclB58 content = none →
        extractProgramIdFromDeployedContract e = e.keypairPubkey)
    ∧ (∀ e : DeployedLookupEnv,
        (e.programInfoId = none ∨ e.programInfoId = some none) →
        e.libRs = none →
        extractProgramIdFromDeployedContract e = e.keypairPubkey) := by
  refine ⟨rfl, ?_, ?_, ?_, ?_, ?_, ?_, ?_⟩
  · intro code pid h
    unfold extractProgramIdFromContract at h
    by_cases hc : code.isEmpty = true
    · simp [hc] at h
    · rw [if_neg hc] at h
      obtain ⟨n, h1, h2⟩ := scanDeclB58_first code pid h
      have hshape := parseDeclB58At_shape h1
      exact ⟨⟨n, h1, h2⟩, hshape.1, hshape.2.1, hshape.2.2.1⟩
  · intro l pid h
    exact (parseDeclB58At_shape h).2.2.2
  · intro code h
    unfold extractProgramIdFromContract
    by_cases hc : code.isEmpty = true
    · simp [hc]
    · rw [if_neg hc]
      exact scanDeclB58_none code h
  · intro e pid h
    unfold extractProgramIdFromDeployedContract
    rw [h]
  · intro e content pid hinfo hlib hscan
    unfold extractProgramIdFromDeployedContract
    rcases hinfo with h | h <;> simp [h, hlib, hscan]
  · intro e content hinfo hlib hscan
    unfold extractProgramIdFromDeployedContract
    rcases hinfo with h | h <;> simp [h, hlib, hscan]
  · intro e hinfo hlib
    unfold extractProgramIdFromDeployedContract
    rcases hinfo with h | h <;> simp [h, hlib]

def c8Code : Str := strL "use anchor_lang::prelude::*;\n\ndeclare_id!(\"8a76RhBfP78tuN2WtZaP11ESgeCStcfb9E78Pf9wz4Yg\");\n"

def c8Pid : Str := strL "8a76RhBfP78tuN2WtZaP11ESgeCStcfb9E78Pf9wz4Yg"

/-- Witness for C8 at a concrete contract and lookup environment. -/
theorem c8_program_id_extraction_witness :
    (∀ a ∈ c8Pid, b58Char a = true) ∧ 32 ≤ c8Pid.length ∧ c8Pid.length ≤ 44
    ∧ extractProgramIdFromContract [] = none
    ∧ extractProgramIdFromDeployedContract ⟨some (some c8Pid), none, none⟩ = some c8Pid
    ∧ extractProgramIdFromDeployedContract ⟨none, some c8Code, none⟩ = some c8Pid
    ∧ extractProgramIdFromDeployedContract ⟨some none, none, some (strL "K")⟩
        = some (strL "K") := by
  have T := c8_program_id_extraction
  have h2 := T.2.1 c8Code c8Pid (by decide)
  refine ⟨h2.2.1, h2.2.2.1, h2.2.2.2, T.1, ?_, ?_, ?_⟩
  · exact T.2.2.2.2.1 ⟨some (some c8Pid), none, none⟩ c8Pid rfl
  · exact T.2.2.2.2.2.1 ⟨none, some c8Code, none⟩ c8Code c8Pid (Or.inl rfl) rfl (by decide)
  · exact T.2.2.2.2.2.2.2 ⟨some none, none, some (strL "K")⟩ (Or.inr rfl) rfl

/-- C10: for a contract id absent from the in-memory dict, the update,
deploy, view and download endpoints each return the 404 body
`error: Contract not found` and leave the dict unchanged, creating and
modifying nothing. -/
theorem c10_not_found_atomic (cs : Contracts) (cid : Str) (u : Option Str) (uuid : Str)
    (h : lookupC cs cid = none) :
    updateContractEndpoint cs cid u = (notFoundResp, cs, [])
    ∧ deployContractEndpoint cs cid uuid = (notFoundResp, cs, [])
    ∧ viewContract cs cid = (notFoundResp, cs)
    ∧ downloadContract cs cid = (notFoundResp, cs)
    ∧ notFoundResp.status = 404
    ∧ notFoundResp.body = J.o [(strL "error", J.s (strL "Contract not found"))] := by
  refine ⟨?_, ?_, ?_, ?_, rfl, rfl⟩
  · unfold updateContractEndpoint
    rw [h]
  · unfold deployContractEndpoint
    rw [h]
  · unfold viewContract
    rw [h]
  · unfold downloadContract
    rw [h]

/-- Witness for C10: the empty dict and an arbitrary id. -/
theorem c10_not_found_atomic_witness :
    updateContractEndpoint [] (strL "missing-id") (some (strL "code"))
      = (notFoundResp, [], [])
    ∧ deployContractEndpoint [] (strL "missing-id") (strL "uuid")
      = (notFoundResp, [], [])
    ∧ viewContract [] (strL "missing-id") = (notFoundResp, [])
    ∧ downloadContract [] (strL "missing-id") = (notFoundResp, [])
    ∧ notFoundResp.status = 404 := by
  have h := c10_not_found_atomic [] (strL "missing-id") (some (strL "code")) (strL "uuid") rfl
  exact ⟨h.1, h.2.1, h.2.2.1, h.2.2.2.1, h.2.2.2.2.1⟩

/-! ### C9: failure paths of `deploy_contract` -/

def c9ScrapedPid : Str := strL "9bceRhBfP78tuN2WtZaP11ESgeCStcfb9E78Pf9wz4Yh"

def c9ScrapeEnv : DeployPyEnv :=
  ⟨true, true, true, false,
   strL "Error: Deploying program failed: pubkey=9bceRhBfP78tuN2WtZaP11ESgeCStcfb9E78Pf9wz4Yh already in use",
   [], none, false⟩

/-- Counterexample to C9: when `anchor deploy` fails but a pubkey can be
scraped from the error output, the config write carries no
`is_mock: true` marker — the claim's asserted write shape does not hold
on this path (the scraped id is also not the fixed mock id). -/
theorem c9_counterexample :
    (deployContractPy c9ScrapeEnv).1 = some c9ScrapedPid
    ∧ (deployContractPy c9ScrapeEnv).2 = [⟨c9ScrapedPid, none⟩]
    ∧ (⟨c9ScrapedPid, (none : Option Bool)⟩ : CfgWrite).isMock ≠ some true
    ∧ c9ScrapedPid ≠ mockPid := by
  refine ⟨by decide, by decide, by decide, by decide⟩

/-- C9 amended: when `anchor build` or `anchor deploy` exits nonzero, or
an exception reaches the handler, `deploy_contract` still returns a
program-id string: the fixed mock id with `is_mock: true` written to
`test-config.json`, except on the deploy-failure path when a pubkey is
scraped from the error output, in which case the scraped id is returned
and written without the `is_mock` marker.  A successful run returns a
plain string too, so the return value alone cannot distinguish a real
deployment from a mocked one. -/
theorem c9_failure_returns_program_id (e : DeployPyEnv)
    (h : e.raises = true
      ∨ (e.raises = false ∧ e.validatorOk = true ∧ e.configSetOk = true
          ∧ (e.buildOk = false ∨ (e.buildOk = true ∧ e.deployOk = false)))) :
    (∃ pid, (deployContractPy e).1 = some pid
      ∧ ((pid = mockPid ∧ (⟨mockPid, some true⟩ : CfgWrite) ∈ (deployContractPy e).2)
        ∨ (scanPubkey (e.deployStderr ++ e.deployStdout) = some pid
            ∧ (⟨pid, none⟩ : CfgWrite) ∈ (deployContractPy e).2)))
    ∧ (deployContractPy
        ⟨true, true, true, true, [], [], some mockPid, false⟩).1 = some mockPid := by
  refine ⟨?_, by decide⟩
  rcases h with h | ⟨h1, h2, h3, h4⟩
  · refine ⟨mockPid, ?_, Or.inl ⟨rfl, ?_⟩⟩ <;> simp [deployContractPy, h]
  · rcases h4 with h4 | ⟨h4, h5⟩
    · refine ⟨mockPid, ?_, Or.inl ⟨rfl, ?_⟩⟩ <;>
        simp [deployContractPy, h1, h2, h3, h4]
    · by_cases hcr : containsB (strL "Connection refused")
          (e.deployStderr ++ e.deployStdout) = true
      · refine ⟨mockPid, ?_, Or.inl ⟨rfl, ?_⟩⟩ <;>
          simp [deployContractPy, h1, h2, h3, h4, h5, hcr]
      · cases hscan : scanPubkey (e.deployStderr ++ e.deployStdout) with
        | some pid =>
          have hfst : (deployContractPy e).1 = some pid := by
            simp [deployContractPy, h1, h2, h3, h4, h5, hcr, hscan]
          have hmem : (⟨pid, none⟩ : CfgWrite) ∈ (deployContractPy e).2 := by
            simp [deployContractPy, h1, h2, h3, h4, h5, hcr, hscan]
          exact ⟨pid, hfst, Or.inr ⟨rfl, hmem⟩⟩
        | none =>
          refine ⟨mockPid, ?_, Or.inl ⟨rfl, ?_⟩⟩ <;>
            simp [deployContractPy, h1, h2, h3, h4, h5, hcr, hscan]

def c9BuildFailEnv : DeployPyEnv := ⟨true, true, false, true, [], [], none, false⟩

/-- Witness for the amended C9 on the build-failure path. -/
theorem c9_failure_returns_program_id_witness :
    (deployContractPy c9BuildFailEnv).1 = some mockPid
    ∧ (⟨mockPid, some true⟩ : CfgWrite) ∈ (deployContractPy c9BuildFailEnv).2
    ∧ (deployContractPy
        ⟨true, true, true, true, [], [], some mockPid, false⟩).1 = some mockPid := by
  have T := c9_failure_returns_program_id c9BuildFailEnv
    (Or.inr ⟨rfl, rfl, rfl, Or.inl rfl⟩)
  obtain ⟨⟨pid, hpid, hcase⟩, hreal⟩ := T
  rcases hcase with ⟨rfl, hmem⟩ | ⟨hscan, -⟩
  · exact ⟨hpid, hmem, hreal⟩
  · simp [c9BuildFailEnv, scanPubkey] at hscan

/-! ### C5: the contract dict lives only in memory -/

theorem lookupC_setC_self : ∀ (cs : Contracts) (k : Str) (v : ContractData),
    lookupC (setC cs k v) k = some v
  | [], k, v => by simp [setC, lookupC]
  | (k0, w) :: t, k, v => by
    by_cases hk : k0 = k
    · simp [setC, lookupC, hk]
    · simp only [setC, lookupC, if_neg hk]
      exact lookupC_setC_self t k v

theorem genPhase_writes_shape (e : AttemptEnv) (a : Nat) (pid : Option Str)
    (elog : Str) (lib : Option Str) :
    ∀ w ∈ (genPhase e a pid elog lib).writes, ∃ c, w.2 = FileContent.rust c := by
  unfold genPhase
  split_ifs with h1
  · cases hg : e.genResult with
    | none => intro w hw; simp at hw
    | some c =>
      intro w hw
      simp at hw
      rw [hw]
      exact ⟨c, rfl⟩
  · cases lib with
    | none => intro w hw; simp at hw
    | some c =>
      by_cases hc : c.isEmpty = true
      · simp only [hc, if_pos]
        intro w hw
        simp at hw
      · simp only [if_neg hc]
        cases hu : e.updResult with
        | none => intro w hw; simp at hw
        | some u =>
          intro w hw
          simp at hw
          rw [hw]
          exact ⟨u, rfl⟩

theorem succPhase_writes_shape (e : AttemptEnv) (pid lib : Option Str) :
    ∀ w ∈ (succPhase e pid lib).writes, ∃ c, w.2 = FileContent.rust c := by
  unfold succPhase
  by_cases hk : e.keypairExists = true
  · rw [if_pos hk]
    cases ha : e.solanaAddr with
    | none => intro w hw; simp at hw
    | some addr =>
      cases lib with
      | none => intro w hw; simp at hw
      | some c =>
        by_cases hd : containsB (declStmt addr) c = true
        · simp only [hd, if_pos]
          intro w hw
          simp at hw
        · simp only [if_neg hd]
          intro w hw
          simp at hw
          rw [hw]
          exact ⟨setDeclareId addr c, rfl⟩
  · rw [if_neg hk]
    intro w hw
    simp at hw

/-- Every file write the build loop performs is contract code (`rust`),
an `Anchor.toml` edit (`toml`), or the `program-info.json` metadata. -/
theorem runAttempts_writes_shape (env : Nat → AttemptEnv) (ct : Str) :
    ∀ (rem a : Nat) (pid : Option Str) (elog : Str) (lib toml : Option Str)
      (r : AttemptRec) (w : Str × FileContent),
      r ∈ (runAttempts env ct rem a pid elog lib toml).recs → w ∈ r.fsWrites →
      (∃ c, w.2 = FileContent.rust c) ∨ (∃ t, w.2 = FileContent.toml t)
      ∨ (∃ p c t, w.2 = FileContent.json (programInfoJson p c t)) := by
  intro rem
  induction rem with
  | zero =>
    intro a pid elog lib toml r w hr
    simp [runAttempts] at hr
  | succ rem ih =>
    intro a pid elog lib toml r w hr hw
    by_cases hfal : codeFalsy (genPhase (env a) a pid elog lib).code = true
    · simp only [runAttempts, if_pos hfal] at hr
      rcases List.mem_cons.mp hr with rfl | hr2
      · simp only at hw
        exact Or.inl (genPhase_writes_shape (env a) a pid elog lib w hw)
      · exact ih (a + 1) _ elog _ toml r w hr2 hw
    · by_cases hbo : (env a).buildOk = true
      · simp only [runAttempts, if_neg hfal, if_pos hbo] at hr
        rcases List.mem_cons.mp hr with rfl | hr2
        · simp only at hw
          rcases List.mem_append.mp hw with hw2 | hw2
          · rcases List.mem_append.mp hw2 with hw3 | hw3
            · exact Or.inl (genPhase_writes_shape (env a) a pid elog lib w hw3)
            · exact Or.inl (succPhase_writes_shape (env a)
                (genPhase (env a) a pid elog lib).pid
                (genPhase (env a) a pid elog lib).lib w hw3)
          · cases hsp : (succPhase (env a) (genPhase (env a) a pid elog lib).pid
                (genPhase (env a) a pid elog lib).lib).pid with
            | none => rw [hsp] at hw2; simp at hw2
            | some p =>
              rw [hsp] at hw2
              simp at hw2
              rw [hw2]
              exact Or.inr (Or.inr ⟨p, ct, (env a).buildTime, rfl⟩)
        · simp at hr2
      · simp only [runAttempts, if_neg hfal, if_neg hbo] at hr
        rcases List.mem_cons.mp hr with rfl | hr2
        · simp only at hw
          rcases List.mem_append.mp hw with hw2 | hw2
          · rcases List.mem_append.mp hw2 with hw3 | hw3
            · exact Or.inl (genPhase_writes_shape (env a) a pid elog lib w hw3)
            · by_cases hqs : stackSig (errFilter (if (env a).buildStderr.isEmpty
                  then (env a).buildStdout else (env a).buildStderr)) = true
              · rw [if_pos hqs] at hw3
                cases hl : (if stackSig (errFilter (if (env a).buildStderr.isEmpty
                    then (env a).buildStdout else (env a).buildStderr)) = true then
                    Option.map stackFix (genPhase (env a) a pid elog lib).lib
                  else (genPhase (env a) a pid elog lib).lib) with
                | none => rw [hl] at hw3; simp at hw3
                | some c =>
                  rw [hl] at hw3
                  simp at hw3
                  rw [hw3]
                  exact Or.inl ⟨c, rfl⟩
              · rw [if_neg hqs] at hw3
                simp at hw3
          · by_cases hqi : idlMissingSig (errFilter (if (env a).buildStderr.isEmpty
                then (env a).buildStdout else (env a).buildStderr)) = true
            · rw [if_pos hqi] at hw2
              cases toml with
              | none => simp at hw2
              | some t =>
                by_cases hib : containsB idlBuildLine t = true
                · simp [hib] at hw2
                · simp only [if_neg hib] at hw2
                  simp at hw2
                  rw [hw2]
                  exact Or.inr (Or.inl ⟨idlQuickFix t, rfl⟩)
            · rw [if_neg hqi] at hw2
              simp at hw2
        · exact ih (a + 1) _ _ _ _ r w hr2 hw

theorem programInfoJson_ne_dict (p c t : Str) (d : Contracts) :
    FileContent.json (programInfoJson p c t) ≠ FileContent.json (specDictPersistJson d) := by
  intro h
  simp only [FileContent.json.injEq] at h
  cases d with
  | nil => simp [programInfoJson, specDictPersistJson] at h
  | cons kv rest =>
    obtain ⟨k, v⟩ := kv
    simp [programInfoJson, specDictPersistJson, contractDataJson] at h

/-- Every pre-loop `Anchor.toml` write carries toml content. -/
theorem preprocessAnchorToml_writes_shape (o : Option Str) :
    ∀ w ∈ (preprocessAnchorToml o).2, ∃ t, w.2 = FileContent.toml t := by
  intro w hw
  cases o with
  | none => simp [preprocessAnchorToml] at hw
  | some t =>
    by_cases hc : containsB (strL "idl-build") t = true
    · simp [preprocessAnchorToml, hc] at hw
    · simp only [preprocessAnchorToml, if_neg hc, List.mem_singleton] at hw
      rw [hw]
      exact ⟨_, rfl⟩

/-- Every pre-loop `Cargo.toml` write carries toml content. -/
theorem preprocessCargoToml_writes_shape (o : Option Str) :
    ∀ w ∈ (preprocessCargoToml o).2, ∃ t, w.2 = FileContent.toml t := by
  intro w hw
  cases o with
  | none => simp [preprocessCargoToml] at hw
  | some t =>
    simp only [preprocessCargoToml, List.mem_singleton] at hw
    rw [hw]
    exact ⟨_, rfl⟩

/-- Every file write of the full build-loop function — pre-loop toml
processing included — is contract code, a toml edit, or the
`program-info.json` metadata. -/
theorem buildLoopFull_writes_shape (env : Nat → AttemptEnv) (ct : Str)
    (maxAttempts : Nat) (libInit anchorInit cargoInit : Option Str) :
    ∀ w ∈ (smartContractBuildLoopFull env ct maxAttempts libInit anchorInit cargoInit).2,
      (∃ c, w.2 = FileContent.rust c) ∨ (∃ t, w.2 = FileContent.toml t)
      ∨ (∃ p c t, w.2 = FileContent.json (programInfoJson p c t)) := by
  intro w hw
  simp only [smartContractBuildLoopFull] at hw
  rcases List.mem_append.mp hw with hw1 | hw2
  · rcases List.mem_append.mp hw1 with ha | hc
    · exact Or.inr (Or.inl (preprocessAnchorToml_writes_shape anchorInit w ha))
    · exact Or.inr (Or.inl (preprocessCargoToml_writes_shape cargoInit w hc))
  · obtain ⟨ws, hws, hwin⟩ := List.mem_flatten.mp hw2
    obtain ⟨r, hrin, hreq⟩ := List.mem_map.mp hws
    exact runAttempts_writes_shape env ct maxAttempts 1 none [] libInit
      (preprocessAnchorToml anchorInit).1 r w hrin (hreq ▸ hwin)

theorem buildEndpoint_writes (cs : Contracts) (ctype cname : Str) (params : J)
    (maxAttempts : Nat) (be : BuildEndpointEnv) :
    (buildContractEndpoint cs ctype cname params maxAttempts be).2.2
      = (smartContractBuildLoopFull be.loopEnv ctype maxAttempts be.libInit
          be.tomlInit be.cargoInit).2 := by
  unfold buildContractEndpoint
  by_cases hs : (!(smartContractBuildLoopFull be.loopEnv ctype maxAttempts be.libInit
      be.tomlInit be.cargoInit).1.success) = true
  · simp only [hs, if_pos]
  · simp only [if_neg hs]
    cases hb : ((smartContractBuildLoopFull be.loopEnv ctype maxAttempts be.libInit
        be.tomlInit be.cargoInit).1.recs.getLast?).bind AttemptRec.libAfter with
    | none => simp
    | some code => simp

def c5Env : GenEndpointEnv := ⟨strL "5417f064449943a6b3b84e1f2e4c7e5a", some (strL "use x;")⟩

/-- Counterexample to C5: on a generate-contract call the only file write
is the contract code itself (`lib.rs`); no write serializes the contract
dict, so the dict is not persisted to a JSON file — it exists only in
memory. -/
theorem c5_counterexample :
    (generateContractEndpoint [] (strL "escrow") (strL "MyContract") (J.o []) c5Env).2.2
      = [(libRsPath, FileContent.rust (strL "use x;"))]
    ∧ List.filter isJsonWrite
        (generateContractEndpoint [] (strL "escrow") (strL "MyContract") (J.o []) c5Env).2.2
      = []
    ∧ lookupC
        (generateContractEndpoint [] (strL "escrow") (strL "MyContract") (J.o []) c5Env).2.1
        (strL "5417f064449943a6b3b84e1f2e4c7e5a")
      = some ⟨strL "escrow", strL "MyContract", J.o [], strL "use x;", false, none,
          false, false⟩ :=
  ⟨rfl, rfl, rfl⟩

/-- C5 amended: the generate and build endpoints store all contract
state in the in-memory dict under a freshly generated uuid — on build
success the built code and its program id are stored the same way; the
dict itself is never written to a file: every write these endpoints
perform either carries contract code, an `Anchor.toml` or `Cargo.toml`
edit (the build loop's pre-loop `Cargo.toml` rewrite included), or the
`program-info.json` triple, none of which is a serialization of the
dict. -/
theorem c5_state_in_memory_dict (cs : Contracts) (ctype cname : Str) (params : J)
    (e : GenEndpointEnv) (code : Str) (he : e.genResult = some code)
    (be : BuildEndpointEnv) (maxAttempts : Nat) :
    (generateContractEndpoint cs ctype cname params e).2.1
      = setC cs e.uuid ⟨ctype, cname, params, code, false, none, false, false⟩
    ∧ lookupC (generateContractEndpoint cs ctype cname params e).2.1 e.uuid
      = some ⟨ctype, cname, params, code, false, none, false, false⟩
    ∧ (generateContractEndpoint cs ctype cname params e).2.2
      = [(libRsPath, FileContent.rust code)]
    ∧ (∀ w ∈ (generateContractEndpoint cs ctype cname params e).2.2,
        ∀ d : Contracts, w.2 ≠ FileContent.json (specDictPersistJson d))
    ∧ (∀ bcode : Str,
        (smartContractBuildLoopFull be.loopEnv ctype maxAttempts be.libInit
            be.tomlInit be.cargoInit).1.success = true →
        ((smartContractBuildLoopFull be.loopEnv ctype maxAttempts be.libInit
            be.tomlInit be.cargoInit).1.recs.getLast?).bind AttemptRec.libAfter
          = some bcode →
        (buildContractEndpoint cs ctype cname params maxAttempts be).2.1
          = setC cs be.uuid ⟨ctype, cname, params, bcode, false,
              (smartContractBuildLoopFull be.loopEnv ctype maxAttempts be.libInit
                be.tomlInit be.cargoInit).1.pid, false, true⟩
        ∧ lookupC (buildContractEndpoint cs ctype cname params maxAttempts be).2.1 be.uuid
          = some ⟨ctype, cname, params, bcode, false,
              (smartContractBuildLoopFull be.loopEnv ctype maxAttempts be.libInit
                be.tomlInit be.cargoInit).1.pid, false, true⟩)
    ∧ (∀ w ∈ (buildContractEndpoint cs ctype cname params maxAttempts be).2.2,
        ∀ d : Contracts, w.2 ≠ FileContent.json (specDictPersistJson d)) := by
  have hgen : generateContractEndpoint cs ctype cname params e
      = (⟨200, J.o [(strL "contract_id", J.s e.uuid),
          (strL "message", J.s (strL "Contract generated successfully"))]⟩,
         setC cs e.uuid ⟨ctype, cname, params, code, false, none, false, false⟩,
         [(libRsPath, .rust code)]) := by
    unfold generateContractEndpoint
    rw [he]
  refine ⟨by rw [hgen], ?_, by rw [hgen], ?_, ?_, ?_⟩
  · rw [hgen]
    exact lookupC_setC_self ..
  · intro w hw d
    rw [hgen] at hw
    simp at hw
    rw [hw]
    intro hcon
    exact FileContent.noConfusion hcon
  · intro bcode hsucc hlast
    have hstate : (buildContractEndpoint cs ctype cname params maxAttempts be).2.1
        = setC cs be.uuid ⟨ctype, cname, params, bcode, false,
            (smartContractBuildLoopFull be.loopEnv ctype maxAttempts be.libInit
              be.tomlInit be.cargoInit).1.pid, false, true⟩ := by
      unfold buildContractEndpoint
      have hns : ¬ ((!(smartContractBuildLoopFull be.loopEnv ctype maxAttempts be.libInit
          be.tomlInit be.cargoInit).1.success) = true) := by
        rw [hsucc]
        simp
      simp only [if_neg hns]
      rw [hlast]
    exact ⟨hstate, by rw [hstate]; exact lookupC_setC_self ..⟩
  · intro w hw d
    rw [buildEndpoint_writes] at hw
    rcases buildLoopFull_writes_shape be.loopEnv ctype maxAttempts be.libInit
        be.tomlInit be.cargoInit w hw with ⟨c, hc⟩ | ⟨t, ht⟩ | ⟨p, c, t, hj⟩
    · rw [hc]
      intro hcon
      exact FileContent.noConfusion hcon
    · rw [ht]
      intro hcon
      exact FileContent.noConfusion hcon
    · rw [hj]
      exact programInfoJson_ne_dict p c t d

def c5CargoW : Str := strL "idl-build init-if-needed [profile.release]"

def c5BuildEnvW : BuildEndpointEnv :=
  ⟨strL "8e7c1b2a", (fun _ =>
    ⟨some (strL "use y;"), none, true, [], [], false, none, strL "t0"⟩), none, none,
   some c5CargoW⟩

/-- Witness for the amended C5 at concrete generate and build calls:
the build call starts from an existing `Cargo.toml`, whose pre-loop
write-back is among the endpoint's writes. -/
theorem c5_state_in_memory_dict_witness :
    (generateContractEndpoint [] (strL "escrow") (strL "C") (J.o []) c5Env).2.1
      = setC [] (strL "5417f064449943a6b3b84e1f2e4c7e5a")
          ⟨strL "escrow", strL "C", J.o [], strL "use x;", false, none, false, false⟩
    ∧ lookupC (generateContractEndpoint [] (strL "escrow") (strL "C") (J.o []) c5Env).2.1
        (strL "5417f064449943a6b3b84e1f2e4c7e5a")
      = some ⟨strL "escrow", strL "C", J.o [], strL "use x;", false, none, false, false⟩
    ∧ (buildContractEndpoint [] (strL "escrow") (strL "C") (J.o []) 1 c5BuildEnvW).2.1
      = setC [] (strL "8e7c1b2a")
          ⟨strL "escrow", strL "C", J.o [], strL "use y;", false, none, false, true⟩
    ∧ lookupC (buildContractEndpoint [] (strL "escrow") (strL "C") (J.o []) 1 c5BuildEnvW).2.1
        (strL "8e7c1b2a")
      = some ⟨strL "escrow", strL "C", J.o [], strL "use y;", false, none, false, true⟩
    ∧ (cargoTomlPath, FileContent.toml c5CargoW)
        ∈ (buildContractEndpoint [] (strL "escrow") (strL "C") (J.o []) 1 c5BuildEnvW).2.2
    ∧ (∀ w ∈ (buildContractEndpoint [] (strL "escrow") (strL "C") (J.o []) 1 c5BuildEnvW).2.2,
        w.2 ≠ FileContent.json (specDictPersistJson [])) := by
  have T := c5_state_in_memory_dict [] (strL "escrow") (strL "C") (J.o []) c5Env
    (strL "use x;") rfl c5BuildEnvW 1
  have H := T.2.2.2.2.1 (strL "use y;") rfl rfl
  refine ⟨T.1, T.2.1, H.1, H.2, ?_, ?_⟩
  · rw [buildEndpoint_writes]
    exact List.mem_cons_self _ _
  · intro w hw
    exact T.2.2.2.2.2 w hw []

end SCG
